import Mathlib

/-!
The GitRepository watcher of radius-flux-controller.

A shallow embedding of `controllers/gitrepository_watcher.go`:

* `Reconcile` reads the watched `GitRepository`, acquires a scratch
  directory, fetches and unpacks the artifact, wraps every extracted file in
  an `ApplicationDeployment` envelope, encodes it with `json.Marshal` and hands
  it to `applyApplicationDeployment`;
* `applyApplicationDeployment` decodes the document with `json.Unmarshal`,
  looks the fixed resource `default/fluxdemo` up and creates or updates it.

The collaborators the Go file calls but does not define (the controller-runtime
client, `os`, the archive fetcher, the dynamic client and the API server behind
it) are an explicit environment: a record of handlers over a state that is
passed along, together with a log of every call made.  The pieces of the Go
standard library and of apimachinery whose behaviour decides a property
(`unicode/utf8`, the string side of `encoding/json`, the nested-field helpers
of `unstructured`) are modelled byte for byte.
-/

namespace RadiusFlux

/-! ## Bytes and Go strings -/

/-- A Go `byte`. -/
abbrev Byte := Fin 256

/-- A Go `string` (equally a `[]byte`): an arbitrary sequence of bytes. -/
abbrev GoString := List Byte

/-- The Go conversion `byte(n)` of a non-negative integer: the low eight bits. -/
def byte (n : Nat) : Byte := ⟨n % 256, Nat.mod_lt n (by decide)⟩

/-- A Go string literal whose characters are all ASCII. -/
def ascii (s : String) : GoString := s.toList.map (fun c => byte c.toNat)

/-! ## `unicode/utf8` -/

/-- The constant `utf8.RuneError`, U+FFFD. -/
def RuneError : Nat := 0xFFFD

/-- The constant `utf8.MaxRune`. -/
def MaxRune : Nat := 0x10FFFF

/-- The table `first` joined with `acceptRanges` of `unicode/utf8`: for a
leading byte, `none` when it is ASCII or invalid (the entries `as` and `xx`),
else the length of the sequence and the accepted range of its second byte. -/
def first (p0 : Nat) : Option (Nat × Nat × Nat) :=
  if p0 < 0xC2 then none
  else if p0 < 0xE0 then some (2, 0x80, 0xBF)
  else if p0 = 0xE0 then some (3, 0xA0, 0xBF)
  else if p0 < 0xED then some (3, 0x80, 0xBF)
  else if p0 = 0xED then some (3, 0x80, 0x9F)
  else if p0 < 0xF0 then some (3, 0x80, 0xBF)
  else if p0 = 0xF0 then some (4, 0x90, 0xBF)
  else if p0 < 0xF4 then some (4, 0x80, 0xBF)
  else if p0 = 0xF4 then some (4, 0x80, 0x8F)
  else none

/-- Continuation bytes lie in `locb..hicb`, that is `0x80..0xBF`. -/
def isCont (b : Nat) : Bool := decide (0x80 ≤ b) && decide (b ≤ 0xBF)

/-- The function `utf8.DecodeRune`: the first rune of `p` and its width in
bytes; `(RuneError, 1)` for an invalid or truncated encoding and
`(RuneError, 0)` for the empty input.  Masking and shifting are written as
remainders and products (`p0 & 0x1F` is `p0 % 32`, `x << 6` is `x * 64`, and
the operands of every `|` have disjoint bits). -/
def DecodeRune : List Byte → Nat × Nat
  | [] => (RuneError, 0)
  | p0 :: rest =>
    if p0.val < 0x80 then (p0.val, 1)
    else
      match first p0.val with
      | none => (RuneError, 1)
      | some (sz, lo, hi) =>
        match rest with
        | [] => (RuneError, 1)
        | b1 :: rest1 =>
          if b1.val < lo ∨ hi < b1.val then (RuneError, 1)
          else if sz ≤ 2 then ((p0.val % 32) * 64 + b1.val % 64, 2)
          else
            match rest1 with
            | [] => (RuneError, 1)
            | b2 :: rest2 =>
              if !isCont b2.val then (RuneError, 1)
              else if sz ≤ 3 then
                ((p0.val % 16) * 4096 + (b1.val % 64) * 64 + b2.val % 64, 3)
              else
                match rest2 with
                | [] => (RuneError, 1)
                | b3 :: _ =>
                  if !isCont b3.val then (RuneError, 1)
                  else
                    ((p0.val % 8) * 262144 + (b1.val % 64) * 4096
                      + (b2.val % 64) * 64 + b3.val % 64, 4)

/-- The function `utf8.EncodeRune` (as `utf8.AppendRune` on an empty slice):
the UTF-8 encoding of `r`; surrogates and values above `MaxRune` encode as
`RuneError`. -/
def EncodeRune (r : Nat) : List Byte :=
  if r ≤ 0x7F then [byte r]
  else if r ≤ 0x7FF then [byte (0xC0 + r / 64), byte (0x80 + r % 64)]
  else if r > MaxRune ∨ (0xD800 ≤ r ∧ r ≤ 0xDFFF) then [byte 0xEF, byte 0xBF, byte 0xBD]
  else if r ≤ 0xFFFF then
    [byte (0xE0 + r / 4096), byte (0x80 + r / 64 % 64), byte (0x80 + r % 64)]
  else
    [byte (0xF0 + r / 262144), byte (0x80 + r / 4096 % 64),
      byte (0x80 + r / 64 % 64), byte (0x80 + r % 64)]

/-- The loop of `utf8.Valid`, with `fuel` bounding the number of runes: no
position decodes to `(RuneError, 1)`. -/
def validFrom : Nat → List Byte → Bool
  | 0, s => s.isEmpty
  | fuel + 1, s =>
    match s with
    | [] => true
    | _ :: _ =>
      let d := DecodeRune s
      if d.1 = RuneError ∧ d.2 = 1 then false else validFrom fuel (s.drop d.2)

/-- The function `utf8.Valid`: `s` is well-formed UTF-8. -/
def Valid (s : GoString) : Bool := validFrom s.length s

/-! ## `encoding/json`: string literals -/

/-- The digit table `hex` of `encoding/json`, `"0123456789abcdef"`. -/
def hex (n : Nat) : Byte := if n < 10 then byte (48 + n) else byte (87 + n)

/-- The table `htmlSafeSet`: the ASCII bytes `json.Marshal` copies unescaped
(HTML escaping is on for `json.Marshal`): everything from the space up, except
the quote, the backslash, `&`, `<` and `>`. -/
def htmlSafe (b : Nat) : Bool :=
  decide (0x20 ≤ b) && decide (b < 0x80) && !decide (b = 34) && !decide (b = 92)
    && !decide (b = 38) && !decide (b = 60) && !decide (b = 62)

/-- The escape `appendString` writes for an ASCII byte outside `htmlSafeSet`. -/
def escapeASCII (b : Byte) : List Byte :=
  if b.val = 92 ∨ b.val = 34 then [byte 92, b]
  else if b.val = 8 then [byte 92, byte 98]
  else if b.val = 12 then [byte 92, byte 102]
  else if b.val = 10 then [byte 92, byte 110]
  else if b.val = 13 then [byte 92, byte 114]
  else if b.val = 9 then [byte 92, byte 116]
  else [byte 92, byte 117, byte 48, byte 48, hex (b.val / 16), hex (b.val % 16)]

/-- The loop of `appendString` (with `escapeHTML` set), `fuel` bounding the
iterations: safe ASCII is copied, other ASCII escaped, every byte that does not
start a well-formed rune becomes the six-byte escape of U+FFFD, U+2028 and U+2029 are
escaped, and every other rune is copied. -/
def appendStringLoop : Nat → List Byte → List Byte
  | 0, _ => []
  | _ + 1, [] => []
  | fuel + 1, b :: rest =>
    if b.val < 0x80 then
      (if htmlSafe b.val then [b] else escapeASCII b) ++ appendStringLoop fuel rest
    else
      let d := DecodeRune (b :: rest)
      if d.1 = RuneError ∧ d.2 = 1 then
        [byte 92, byte 117, byte 102, byte 102, byte 102, byte 100] ++ appendStringLoop fuel rest
      else if d.1 = 0x2028 ∨ d.1 = 0x2029 then
        [byte 92, byte 117, byte 50, byte 48, byte 50, hex (d.1 % 16)]
          ++ appendStringLoop fuel ((b :: rest).drop d.2)
      else
        (b :: rest).take d.2 ++ appendStringLoop fuel ((b :: rest).drop d.2)

/-- The function `appendString` of `encoding/json`: the JSON string literal for
the Go string `src`, quotes included. -/
def appendString (src : GoString) : List Byte :=
  byte 34 :: (appendStringLoop src.length src ++ [byte 34])

/-- The value of a hexadecimal digit, as `getu4` reads it. -/
def hexVal (c : Nat) : Option Nat :=
  if 48 ≤ c ∧ c ≤ 57 then some (c - 48)
  else if 97 ≤ c ∧ c ≤ 102 then some (c - 97 + 10)
  else if 65 ≤ c ∧ c ≤ 70 then some (c - 65 + 10)
  else none

/-- The function `getu4`: the code unit of a `\uXXXX` escape at the head of
the input, `none` (Go's `-1`) when there is none. -/
def getu4 : List Byte → Option Nat
  | b0 :: b1 :: a :: b :: c :: d :: _ =>
    if b0.val = 92 ∧ b1.val = 117 then
      match hexVal a.val, hexVal b.val, hexVal c.val, hexVal d.val with
      | some x3, some x2, some x1, some x0 => some (x3 * 4096 + x2 * 256 + x1 * 16 + x0)
      | _, _, _, _ => none
    else none
  | _ => none

/-- The function `utf16.IsSurrogate`. -/
def IsSurrogate (r : Nat) : Bool := decide (0xD800 ≤ r) && decide (r < 0xE000)

/-- The function `utf16.DecodeRune` on a pair of code units, the second one
possibly missing: the rune of a valid surrogate pair, else U+FFFD. -/
def utf16DecodeRune (r1 : Nat) (r2 : Option Nat) : Nat :=
  match r2 with
  | some r2 =>
    if 0xD800 ≤ r1 ∧ r1 < 0xDC00 ∧ 0xDC00 ≤ r2 ∧ r2 < 0xE000 then
      (r1 - 0xD800) * 1024 + (r2 - 0xDC00) + 0x10000
    else RuneError
  | none => RuneError

/-- Prepends decoded bytes to the result of decoding the rest of a literal. -/
def emit (out : List Byte) (r : Option (GoString × List Byte)) : Option (GoString × List Byte) :=
  r.map (fun p => (out ++ p.1, p.2))

/-- The decoding of a JSON string literal, from just after its opening quote:
the scanner's states `stateInString`, `stateInStringEsc` and
`stateInStringEscU` together with `unquoteBytes`.  The result is the decoded Go
string and the input that follows the closing quote; `none` is a syntax error.
Raw control characters are rejected, escapes are resolved, surrogate pairs are
combined, and bytes that are not well-formed UTF-8 are coerced to U+FFFD. -/
def unquoteLoop : Nat → List Byte → Option (GoString × List Byte)
  | 0, _ => none
  | _ + 1, [] => none
  | fuel + 1, c :: rest =>
    if c.val = 34 then some ([], rest)
    else if c.val = 92 then
      match rest with
      | [] => none
      | e :: rest1 =>
        if e.val = 34 ∨ e.val = 92 ∨ e.val = 47 then emit [e] (unquoteLoop fuel rest1)
        else if e.val = 98 then emit [byte 8] (unquoteLoop fuel rest1)
        else if e.val = 102 then emit [byte 12] (unquoteLoop fuel rest1)
        else if e.val = 110 then emit [byte 10] (unquoteLoop fuel rest1)
        else if e.val = 114 then emit [byte 13] (unquoteLoop fuel rest1)
        else if e.val = 116 then emit [byte 9] (unquoteLoop fuel rest1)
        else if e.val = 117 then
          match getu4 (c :: rest) with
          | none => none
          | some rr =>
            let rest2 := rest1.drop 4
            if IsSurrogate rr then
              let dec := utf16DecodeRune rr (getu4 rest2)
              if dec ≠ RuneError then emit (EncodeRune dec) (unquoteLoop fuel (rest2.drop 6))
              else emit (EncodeRune RuneError) (unquoteLoop fuel rest2)
            else emit (EncodeRune rr) (unquoteLoop fuel rest2)
        else none
    else if c.val < 0x20 then none
    else if c.val < 0x80 then emit [c] (unquoteLoop fuel rest)
    else
      let d := DecodeRune (c :: rest)
      emit (EncodeRune d.1) (unquoteLoop fuel ((c :: rest).drop d.2))

/-- Reads one string literal at the head of the input (opening quote
included). -/
def readString (s : List Byte) : Option (GoString × List Byte) :=
  match s with
  | [] => none
  | q :: rest => if q.val = 34 then unquoteLoop s.length rest else none

/-- What a Go string becomes when it goes through `json.Marshal`: the loop of
`appendString` seen on the decoded side, every byte that does not start a
well-formed rune replaced by the encoding of U+FFFD. -/
def coerceUTF8 : Nat → List Byte → List Byte
  | 0, _ => []
  | _ + 1, [] => []
  | fuel + 1, b :: rest =>
    let d := DecodeRune (b :: rest)
    if d.1 = RuneError ∧ d.2 = 1 then [byte 0xEF, byte 0xBF, byte 0xBD] ++ coerceUTF8 fuel rest
    else (b :: rest).take d.2 ++ coerceUTF8 fuel ((b :: rest).drop d.2)

/-- The Go string `s` coerced to well-formed UTF-8. -/
def toValidUTF8 (s : GoString) : GoString := coerceUTF8 s.length s

/-! ## `encoding/json`: values -/

/-- A JSON value as Go holds it in an `interface{}`: `nil`, `bool`, a number
(kept as its literal; the conversion to `float64` is not modelled), `string`,
`[]interface{}` and `map[string]interface{}`.  A map is kept as the list of its
fields sorted by key, so that equal maps are equal lists and `json.Marshal`,
which writes the keys of a map in sorted order, writes the list as it stands. -/
inductive JSON where
  | null : JSON
  | bool (b : Bool) : JSON
  | number (literal : List Byte) : JSON
  | string (s : GoString) : JSON
  | array (elems : List JSON) : JSON
  | object (fields : List (GoString × JSON)) : JSON

/-- A Go `map[string]interface{}`. -/
abbrev Fields := List (GoString × JSON)

/-- The order `strings.Compare(a, b) < 0`: bytewise lexicographic. -/
def strLess : GoString → GoString → Bool
  | [], [] => false
  | [], _ :: _ => true
  | _ :: _, [] => false
  | a :: as, b :: bs =>
    if a.val < b.val then true else if b.val < a.val then false else strLess as bs

/-- The map read `m[k]`. -/
def getField : Fields → GoString → Option JSON
  | [], _ => none
  | (k', v) :: rest, k => if k' = k then some v else getField rest k

/-- The map write `m[k] = v`. -/
def setField : Fields → GoString → JSON → Fields
  | [], k, v => [(k, v)]
  | (k', v') :: rest, k, v =>
    if k' = k then (k, v) :: rest
    else if strLess k k' then (k, v) :: (k', v') :: rest
    else (k', v') :: setField rest k v

/-- The map deletion `delete(m, k)`. -/
def deleteField : Fields → GoString → Fields
  | [], _ => []
  | (k', v') :: rest, k => if k' = k then rest else (k', v') :: deleteField rest k

/-- A Go map literal: the fields written one after the other into an empty
map. -/
def mapLit (fields : List (GoString × JSON)) : Fields :=
  fields.foldl (fun m kv => setField m kv.1 kv.2) []

mutual
/-- The encoder of `json.Marshal` on the values of a `map[string]interface{}`:
compact, the keys of a map in sorted order, strings through `appendString`. -/
def encodeValue : JSON → List Byte
  | .null => ascii "null"
  | .bool true => ascii "true"
  | .bool false => ascii "false"
  | .number lit => lit
  | .string s => appendString s
  | .array elems => byte 91 :: (encodeElems elems ++ [byte 93])
  | .object fields => byte 123 :: (encodeFields fields ++ [byte 125])
/-- The elements of an array, separated by commas. -/
def encodeElems : List JSON → List Byte
  | [] => []
  | [v] => encodeValue v
  | v :: w :: rest => encodeValue v ++ byte 44 :: encodeElems (w :: rest)
/-- The members of an object, separated by commas. -/
def encodeFields : List (GoString × JSON) → List Byte
  | [] => []
  | [(k, v)] => appendString k ++ byte 58 :: encodeValue v
  | (k, v) :: kv :: rest =>
    appendString k ++ byte 58 :: (encodeValue v ++ byte 44 :: encodeFields (kv :: rest))
end

/-- The function `isSpace` of the scanner. -/
def isSpace (c : Nat) : Bool :=
  decide (c = 32) || decide (c = 9) || decide (c = 13) || decide (c = 10)

/-- Drops leading white space. -/
def skipWS : List Byte → List Byte
  | [] => []
  | c :: rest => if isSpace c.val then skipWS rest else c :: rest

/-- Takes the leading decimal digits. -/
def takeDigits : List Byte → List Byte × List Byte
  | [] => ([], [])
  | c :: rest =>
    if 48 ≤ c.val ∧ c.val ≤ 57 then (c :: (takeDigits rest).1, (takeDigits rest).2)
    else ([], c :: rest)

/-- The scanner's number states: a number literal at the head of the input
(`-`? integer part, optional fraction, optional exponent) and the rest. -/
def readNumber (s : List Byte) : Option (List Byte × List Byte) :=
  let (sign, s1) : List Byte × List Byte :=
    match s with
    | c :: rest => if c.val = 45 then ([c], rest) else ([], s)
    | [] => ([], [])
  let intPart : Option (List Byte × List Byte) :=
    match s1 with
    | c :: rest =>
      if c.val = 48 then some ([c], rest)
      else if 49 ≤ c.val ∧ c.val ≤ 57 then some (c :: (takeDigits rest).1, (takeDigits rest).2)
      else none
    | [] => none
  match intPart with
  | none => none
  | some (ip, s2) =>
    let frac : Option (List Byte × List Byte) :=
      match s2 with
      | c :: rest =>
        if c.val = 46 then
          (if (takeDigits rest).1 = [] then none
           else some (c :: (takeDigits rest).1, (takeDigits rest).2))
        else some ([], s2)
      | [] => some ([], [])
    match frac with
    | none => none
    | some (fp, s3) =>
      let exp : Option (List Byte × List Byte) :=
        match s3 with
        | c :: rest =>
          if c.val = 101 ∨ c.val = 69 then
            let (es, s4) : List Byte × List Byte :=
              match rest with
              | d :: rest' => if d.val = 43 ∨ d.val = 45 then ([d], rest') else ([], rest)
              | [] => ([], [])
            (if (takeDigits s4).1 = [] then none
             else some (c :: (es ++ (takeDigits s4).1), (takeDigits s4).2))
          else some ([], s3)
        | [] => some ([], [])
      match exp with
      | none => none
      | some (ep, s5) => some (sign ++ ip ++ fp ++ ep, s5)

/-- Strips the literal `lit` from the head of the input. -/
def stripLiteral : List Byte → List Byte → Option (List Byte)
  | [], s => some s
  | _ :: _, [] => none
  | l :: lit, c :: s => if l = c then stripLiteral lit s else none

/-- The constant `maxNestingDepth` of the scanner. -/
def maxNestingDepth : Nat := 10000

mutual
/-- The decoder of `json.Unmarshal` into an `interface{}`: one value at the
head of the input and what follows it, `none` for a syntax error.  `fuel`
bounds the recursion and `depth` is the current nesting, limited to
`maxNestingDepth` as in the scanner. -/
def parseValue : Nat → Nat → List Byte → Option (JSON × List Byte)
  | 0, _, _ => none
  | fuel + 1, depth, s =>
    match skipWS s with
    | [] => none
    | c :: rest =>
      if c.val = 123 then
        if depth + 1 > maxNestingDepth then none
        else
          match skipWS rest with
          | [] => none
          | d :: rest1 =>
            if d.val = 125 then some (.object [], rest1)
            else parseMembers fuel (depth + 1) (d :: rest1) []
      else if c.val = 91 then
        if depth + 1 > maxNestingDepth then none
        else
          match skipWS rest with
          | [] => none
          | d :: rest1 =>
            if d.val = 93 then some (.array [], rest1)
            else parseElems fuel (depth + 1) (d :: rest1) []
      else if c.val = 34 then
        match readString (c :: rest) with
        | none => none
        | some (str, rest1) => some (.string str, rest1)
      else if c.val = 116 then
        (stripLiteral (ascii "true") (c :: rest)).map (fun r => (.bool true, r))
      else if c.val = 102 then
        (stripLiteral (ascii "false") (c :: rest)).map (fun r => (.bool false, r))
      else if c.val = 110 then
        (stripLiteral (ascii "null") (c :: rest)).map (fun r => (.null, r))
      else
        match readNumber (c :: rest) with
        | none => none
        | some (lit, rest1) => some (.number lit, rest1)
/-- The members of an object, from its first key to the closing brace; a key
that comes twice keeps its last value. -/
def parseMembers : Nat → Nat → List Byte → Fields → Option (JSON × List Byte)
  | 0, _, _, _ => none
  | fuel + 1, depth, s, acc =>
    match readString (skipWS s) with
    | none => none
    | some (k, r1) =>
      match skipWS r1 with
      | [] => none
      | c :: r2 =>
        if c.val = 58 then
          match parseValue fuel depth r2 with
          | none => none
          | some (v, r3) =>
            match skipWS r3 with
            | [] => none
            | d :: r4 =>
              if d.val = 44 then parseMembers fuel depth r4 (setField acc k v)
              else if d.val = 125 then some (.object (setField acc k v), r4)
              else none
        else none
/-- The elements of an array, from its first element to the closing bracket. -/
def parseElems : Nat → Nat → List Byte → List JSON → Option (JSON × List Byte)
  | 0, _, _, _ => none
  | fuel + 1, depth, s, acc =>
    match parseValue fuel depth s with
    | none => none
    | some (v, r1) =>
      match skipWS r1 with
      | [] => none
      | d :: r2 =>
        if d.val = 44 then parseElems fuel depth r2 (acc ++ [v])
        else if d.val = 93 then some (.array (acc ++ [v]), r2)
        else none
end


/-! ## Errors -/

/-- The reasons of an API status error that the code or its environment tell
apart (`metav1.StatusReason`). -/
inductive StatusReason where
  | NotFound
  | AlreadyExists
  | Conflict
  | Forbidden
  | Invalid
  | Timeout
  | InternalError
  deriving DecidableEq, Repr

/-- A non-nil Go `error`: an API status error, an error wrapped by
`fmt.Errorf` with `%w`, or any other error. -/
inductive GoError where
  | status (reason : StatusReason) : GoError
  | wrapped (msg : String) (inner : GoError) : GoError
  | other (msg : String) : GoError
  deriving DecidableEq, Repr

/-- The function `errors.IsNotFound` of apimachinery on a non-nil error: the
reason of the status error, looked for through `%w` wrappers, is `NotFound`. -/
def IsNotFound : GoError → Bool
  | .status r => decide (r = StatusReason.NotFound)
  | .wrapped _ inner => IsNotFound inner
  | .other _ => false

/-- The function `client.IgnoreNotFound`: `nil` for a `NotFound` error, the
error itself otherwise. -/
def IgnoreNotFound (err : GoError) : Option GoError :=
  if IsNotFound err then none else some err

/-- The function `json.Marshal` on a `map[string]interface{}` whose values are
strings and maps of strings: it has no value it cannot encode, so it never
returns an error. -/
def Marshal (v : JSON) : Except GoError (List Byte) := .ok (encodeValue v)

/-- The function `json.Unmarshal` into a nil `map[string]interface{}`: a
syntax error for a malformed document or one followed by anything but white
space, the fields of a JSON object, the untouched nil map (read like an empty
one) for `null`, and a type error for every other value. -/
def Unmarshal (data : List Byte) : Except GoError Fields :=
  match parseValue (data.length + 1) 0 data with
  | none => .error (.other "json: syntax error")
  | some (v, rest) =>
    match skipWS rest with
    | _ :: _ => .error (.other "json: syntax error")
    | [] =>
      match v with
      | .object fields => .ok fields
      | .null => .ok []
      | _ => .error (.other "json: cannot unmarshal value into a Go map")

/-! ## `unstructured.Unstructured` -/

/-- The type `unstructured.Unstructured`: a wrapper of the map `Object`. -/
structure Unstructured where
  /-- The field `Object`. -/
  Object : Fields

/-- The function `unstructured.NestedFieldNoCopy`: the value at a path of map
keys, `none` when a key is missing or a value on the way is not a map. -/
def NestedFieldNoCopy : Fields → List GoString → Option JSON
  | m, [] => some (.object m)
  | m, [k] => getField m k
  | m, k :: k' :: ks =>
    match getField m k with
    | some (.object inner) => NestedFieldNoCopy inner (k' :: ks)
    | _ => none

/-- The helper `getNestedString` of `Unstructured`: the string at a path, the
empty string when it is missing or not a string. -/
def getNestedString (m : Fields) (path : List GoString) : GoString :=
  match NestedFieldNoCopy m path with
  | some (.string s) => s
  | _ => []

/-- The function `unstructured.SetNestedField` for a string value: maps that
are missing on the way are created; when a value on the way is not a map the
object is left as it is (the error is dropped by `setNestedField`). -/
def SetNestedField : Fields → JSON → List GoString → Fields
  | m, _, [] => m
  | m, v, [k] => setField m k v
  | m, v, k :: k' :: ks =>
    match getField m k with
    | some (.object inner) => setField m k (.object (SetNestedField inner v (k' :: ks)))
    | some _ => m
    | none => setField m k (.object (SetNestedField [] v (k' :: ks)))

/-- The function `unstructured.RemoveNestedField`: deletes the last key of the
path when every value on the way is a map. -/
def RemoveNestedField : Fields → List GoString → Fields
  | m, [] => m
  | m, [k] => deleteField m k
  | m, k :: k' :: ks =>
    match getField m k with
    | some (.object inner) => setField m k (.object (RemoveNestedField inner (k' :: ks)))
    | _ => m

/-- The path of the optimistic-concurrency token, `metadata.resourceVersion`. -/
def resourceVersionPath : List GoString := [ascii "metadata", ascii "resourceVersion"]

/-- The method `GetResourceVersion`. -/
def Unstructured.GetResourceVersion (u : Unstructured) : GoString :=
  getNestedString u.Object resourceVersionPath

/-- The method `GetName`. -/
def Unstructured.GetName (u : Unstructured) : GoString :=
  getNestedString u.Object [ascii "metadata", ascii "name"]

/-- The method `SetResourceVersion`: the empty string removes the field. -/
def Unstructured.SetResourceVersion (u : Unstructured) (resourceVersion : GoString) :
    Unstructured :=
  if resourceVersion.length = 0 then ⟨RemoveNestedField u.Object resourceVersionPath⟩
  else ⟨SetNestedField u.Object (.string resourceVersion) resourceVersionPath⟩

/-! ## The environment -/

/-- A `context.Context` as the code tells them apart: the context handed to
`Reconcile`, which its caller may cancel, and `context.TODO()`, which is never
cancelled. -/
inductive Context where
  | request
  | todo
  deriving DecidableEq, Repr

/-- The type `types.NamespacedName`. -/
structure NamespacedName where
  /-- The field `Namespace`. -/
  Namespace : GoString
  /-- The field `Name`. -/
  Name : GoString
  deriving DecidableEq

/-- The type `ctrl.Request`. -/
structure Request where
  /-- The embedded field `NamespacedName`. -/
  NamespacedName : NamespacedName
  deriving DecidableEq

/-- The type `ctrl.Result`. -/
structure Result where
  /-- The field `Requeue`. -/
  Requeue : Bool
  /-- The field `RequeueAfter`, a `time.Duration`. -/
  RequeueAfter : Int
  deriving DecidableEq, Repr

/-- The zero value `ctrl.Result{}`: no requeue. -/
def Result.empty : Result := ⟨false, 0⟩

/-- The fields of the artifact of a source that `Reconcile` reads. -/
structure Artifact where
  /-- The field `URL`. -/
  URL : GoString
  /-- The field `Digest`. -/
  Digest : GoString
  /-- The field `Revision`. -/
  Revision : GoString
  deriving DecidableEq

/-- The fields of `sourcev1.GitRepository` that `Reconcile` reads.  The field
`Status.Artifact` is a pointer: `none` is `nil`, a source that has published no
artifact. -/
structure GitRepository where
  /-- The field `Name` of the object metadata. -/
  Name : GoString
  /-- The field `Status.Artifact`. -/
  Artifact : Option Artifact
  deriving DecidableEq

/-- A call that leaves the controller, or, for `applied`, the return of one
call of `applyApplicationDeployment` with the document it was given and the
error it returned.  Calls of the logger are not recorded. -/
inductive Call where
  | clientGet (ctx : Context) (key : NamespacedName) : Call
  | mkdirTemp (dir : GoString) (pattern : GoString) : Call
  | fetch (url : GoString) (digest : GoString) (dir : GoString) : Call
  | readDir (path : GoString) : Call
  | readFile (path : GoString) : Call
  | removeAll (path : GoString) : Call
  | inClusterConfig : Call
  | newForConfig : Call
  | resourceGet (ctx : Context) (name : GoString) : Call
  | resourceCreate (ctx : Context) (obj : Unstructured) : Call
  | resourceUpdate (ctx : Context) (obj : Unstructured) : Call
  | applied (doc : List Byte) (err : Option GoError) : Call

/-- The collaborators of the controller over an environment state `σ`: every
handler takes the state in which it is called and gives its result and the
state it leaves.  `Get` is the controller-runtime client; `MkdirTemp`,
`ReadDir`, `ReadFile` and `RemoveAll` are package `os`; `Fetch` is the archive
fetcher; `InClusterConfig` and `NewForConfig` build the dynamic client;
`ResourceGet`, `ResourceCreate` and `ResourceUpdate` are the dynamic client for
`applicationdeployments.radapp.io/v1alpha3` in namespace `default`.
`DirExists` observes whether a path exists on disk. -/
structure Env (σ : Type) where
  /-- The call `r.Get(ctx, key, &repository)`. -/
  Get : Context → NamespacedName → σ → Except GoError GitRepository × σ
  /-- The call `os.MkdirTemp(dir, pattern)`. -/
  MkdirTemp : GoString → GoString → σ → Except GoError GoString × σ
  /-- The call `r.artifactFetcher.Fetch(url, digest, dir)`; it takes no context. -/
  Fetch : GoString → GoString → GoString → σ → Option GoError × σ
  /-- The call `os.ReadDir(path)`: the names of the entries, sorted. -/
  ReadDir : GoString → σ → Except GoError (List GoString) × σ
  /-- The call `os.ReadFile(path)`. -/
  ReadFile : GoString → σ → Except GoError (List Byte) × σ
  /-- The call `os.RemoveAll(path)`. -/
  RemoveAll : GoString → σ → Option GoError × σ
  /-- The call `rest.InClusterConfig()`. -/
  InClusterConfig : σ → Option GoError × σ
  /-- The call `dynamic.NewForConfig(config)`. -/
  NewForConfig : σ → Option GoError × σ
  /-- The call `resource.Get(ctx, name, metav1.GetOptions{})`. -/
  ResourceGet : Context → GoString → σ → Except GoError Unstructured × σ
  /-- The call `resource.Create(ctx, obj, metav1.CreateOptions{})`. -/
  ResourceCreate : Context → Unstructured → σ → Except GoError Unstructured × σ
  /-- The call `resource.Update(ctx, obj, metav1.UpdateOptions{})`. -/
  ResourceUpdate : Context → Unstructured → σ → Except GoError Unstructured × σ
  /-- Whether `path` exists on disk in a state. -/
  DirExists : GoString → σ → Bool

/-- The state of a run: the environment state and the calls made so far, the
oldest first. -/
structure World (σ : Type) where
  /-- The environment state. -/
  state : σ
  /-- The calls made so far. -/
  calls : List Call

/-- Records a call and the state it left. -/
def World.step {σ : Type} (w : World σ) (c : Call) (s : σ) : World σ :=
  ⟨s, w.calls ++ [c]⟩

/-! ## The controller -/

/-- The function `applyApplicationDeployment` (lines 132-193).  The context it
is given is used for the logger only; the three calls of the dynamic client are
made with `context.TODO()`. -/
def applyApplicationDeployment {σ : Type} (env : Env σ) (_ctx : Context)
    (applicationDeployment : List Byte) (w : World σ) : (Result × Option GoError) × World σ :=
  -- Create in-cluster client configuration
  match env.InClusterConfig w.state with
  | (some err, s1) => ((Result.empty, some err), w.step .inClusterConfig s1)
  | (none, s1) =>
    let w1 := w.step .inClusterConfig s1
    -- Create dynamic client
    match env.NewForConfig w1.state with
    | (some err, s2) => ((Result.empty, some err), w1.step .newForConfig s2)
    | (none, s2) =>
      let w2 := w1.step .newForConfig s2
      -- Parse the JSON into an unstructured object
      match Unmarshal applicationDeployment with
      | .error err => ((Result.empty, some err), w2)
      | .ok obj =>
        -- Attempt to get the object to see if it needs to be created or updated
        match env.ResourceGet .todo (ascii "fluxdemo") w2.state with
        | (.error err, s3) =>
          let w3 := w2.step (.resourceGet .todo (ascii "fluxdemo")) s3
          if IsNotFound err then
            -- Object does not exist, so create it
            match env.ResourceCreate .todo ⟨obj⟩ w3.state with
            | (.error err, s4) =>
              ((Result.empty, some err), w3.step (.resourceCreate .todo ⟨obj⟩) s4)
            | (.ok _, s4) =>
              ((Result.empty, none), w3.step (.resourceCreate .todo ⟨obj⟩) s4)
          else
            -- An error occurred that isn't due to the object not existing
            ((Result.empty, some err), w3)
        | (.ok getObj, s3) =>
          let w3 := w2.step (.resourceGet .todo (ascii "fluxdemo")) s3
          -- Object exists, so update it
          let unstructuredObj : Unstructured :=
            Unstructured.SetResourceVersion ⟨obj⟩ getObj.GetResourceVersion
          match env.ResourceUpdate .todo unstructuredObj w3.state with
          | (.error err, s4) =>
            ((Result.empty, some err), w3.step (.resourceUpdate .todo unstructuredObj) s4)
          | (.ok _, s4) =>
            ((Result.empty, none), w3.step (.resourceUpdate .todo unstructuredObj) s4)

/-- The map literal `applicationDeployment` of `Reconcile` (lines 100-111) for
the content of one file. -/
def envelope (escapedJSON : GoString) : JSON :=
  .object (mapLit [
    (ascii "kind", .string (ascii "ApplicationDeployment")),
    (ascii "apiVersion", .string (ascii "radapp.io/v1alpha3")),
    (ascii "metadata", .object (mapLit [
      (ascii "name", .string (ascii "fluxdemo")),
      (ascii "namespace", .string (ascii "default"))])),
    (ascii "spec", .object (mapLit [
      (ascii "template", .string escapedJSON)]))])

/-- The body of the loop over the extracted files (lines 88-127), from the
entries still to process. -/
def processFiles {σ : Type} (env : Env σ) (ctx : Context) (tmpDir : GoString) :
    List GoString → World σ → (Result × Option GoError) × World σ
  | [], w => ((Result.empty, none), w)
  | f :: files, w =>
    let path := tmpDir ++ ascii "/" ++ f
    match env.ReadFile path w.state with
    | (.error err, s1) =>
      ((Result.empty, some (.wrapped "failed to read file, error: " err)),
        w.step (.readFile path) s1)
    | (.ok content, s1) =>
      let w1 := w.step (.readFile path) s1
      let escapedJSON := content
      -- Marshal the ApplicationDeployment structure
      match Marshal (envelope escapedJSON) with
      | .error err => ((Result.empty, some err), w1)
      | .ok jsonOutput =>
        -- create or update the ApplicationDeployment object
        match applyApplicationDeployment env ctx jsonOutput w1 with
        | ((_, some err), w2) =>
          ((Result.empty, some err), ⟨w2.state, w2.calls ++ [.applied jsonOutput (some err)]⟩)
        | ((_, none), w2) =>
          processFiles env ctx tmpDir files
            ⟨w2.state, w2.calls ++ [.applied jsonOutput none]⟩

/-- Lines 75-129 of `Reconcile`: what runs between the registration of the
deferred removal and the return. -/
def reconcileArtifact {σ : Type} (env : Env σ) (ctx : Context) (artifact : Artifact)
    (tmpDir : GoString) (w : World σ) : (Result × Option GoError) × World σ :=
  -- download and extract artifact
  match env.Fetch artifact.URL artifact.Digest tmpDir w.state with
  | (some err, s1) =>
    ((Result.empty, some err), w.step (.fetch artifact.URL artifact.Digest tmpDir) s1)
  | (none, s1) =>
    let w1 := w.step (.fetch artifact.URL artifact.Digest tmpDir) s1
    -- list artifact content
    match env.ReadDir tmpDir w1.state with
    | (.error err, s2) =>
      ((Result.empty, some (.wrapped "failed to list files, error: " err)),
        w1.step (.readDir tmpDir) s2)
    | (.ok files, s2) => processFiles env ctx tmpDir files (w1.step (.readDir tmpDir) s2)

/-- How a call of `Reconcile` ends: it returns a result and an error (`none`
is `nil`), or it panics. -/
inductive Outcome where
  | returned (result : Result) (err : Option GoError) : Outcome
  | panicked (msg : String) : Outcome
  deriving DecidableEq, Repr

/-- The method `Reconcile` (lines 50-130). -/
def Reconcile {σ : Type} (env : Env σ) (ctx : Context) (req : Request) (w : World σ) :
    Outcome × World σ :=
  -- get source object
  match env.Get ctx req.NamespacedName w.state with
  | (.error err, s1) =>
    (.returned Result.empty (IgnoreNotFound err), w.step (.clientGet ctx req.NamespacedName) s1)
  | (.ok repository, s1) =>
    let w1 := w.step (.clientGet ctx req.NamespacedName) s1
    -- `artifact.Revision` dereferences the pointer `repository.Status.Artifact`
    match repository.Artifact with
    | none => (.panicked "invalid memory address or nil pointer dereference", w1)
    | some artifact =>
      -- create tmp dir
      match env.MkdirTemp [] repository.Name w1.state with
      | (.error err, s2) =>
        (.returned Result.empty (some (.wrapped "failed to create temp dir, error: " err)),
          w1.step (.mkdirTemp [] repository.Name) s2)
      | (.ok tmpDir, s2) =>
        let w2 := w1.step (.mkdirTemp [] repository.Name) s2
        match reconcileArtifact env ctx artifact tmpDir w2 with
        | ((result, err), w3) =>
          -- the deferred `os.RemoveAll(tmpDir)`, whose error is only logged
          let w4 := w3.step (.removeAll tmpDir) (env.RemoveAll tmpDir w3.state).2
          (.returned result err, w4)

/-- The object `Reconcile` builds for one file, its keys in sorted order (the
map literal of lines 100-111 read as a sorted list of fields). -/
def envelopeFields (template : GoString) : Fields :=
  [(ascii "apiVersion", .string (ascii "radapp.io/v1alpha3")),
   (ascii "kind", .string (ascii "ApplicationDeployment")),
   (ascii "metadata", .object [
      (ascii "name", .string (ascii "fluxdemo")),
      (ascii "namespace", .string (ascii "default"))]),
   (ascii "spec", .object [(ascii "template", .string template)])]

/-- The document `jsonOutput` that `Reconcile` hands to
`applyApplicationDeployment` for a file with the given content. -/
def jsonOutput (content : List Byte) : List Byte := encodeValue (envelope content)

/-- The calls of the log that reached the cluster API as a `Create`. -/
def creates : List Call → List Unstructured
  | [] => []
  | .resourceCreate _ obj :: rest => obj :: creates rest
  | _ :: rest => creates rest

/-- The calls of the log that reached the cluster API as an `Update`. -/
def updates : List Call → List Unstructured
  | [] => []
  | .resourceUpdate _ obj :: rest => obj :: updates rest
  | _ :: rest => updates rest

/-- The lookups of the log, by the name looked up. -/
def lookups : List Call → List GoString
  | [] => []
  | .resourceGet _ name :: rest => name :: lookups rest
  | _ :: rest => lookups rest

/-- The returns of `applyApplicationDeployment` in the log: the document each
call was given and the error it returned. -/
def upserts : List Call → List (List Byte × Option GoError)
  | [] => []
  | .applied doc err :: rest => (doc, err) :: upserts rest
  | _ :: rest => upserts rest

/-- The removals of the log, by path. -/
def removals : List Call → List GoString
  | [] => []
  | .removeAll path :: rest => path :: removals rest
  | _ :: rest => removals rest

/-! ## A cluster API with optimistic concurrency -/

/-- The decimal digits of `n`, most significant first; `fuel` bounds their
number. -/
def decimalDigits : Nat → Nat → List Byte
  | 0, _ => []
  | fuel + 1, n =>
    if n < 10 then [byte (48 + n)] else decimalDigits fuel (n / 10) ++ [byte (48 + n % 10)]

/-- The token the cluster writes for revision `n`: its decimal numeral. -/
def decimal (n : Nat) : GoString := decimalDigits (n + 1) n

/-- Modelled from the spec: the target cluster API of section 6, which is not
part of the repository: the resources of one kind in one namespace, by name,
and the revision counter from which the optimistic-concurrency tokens are
drawn. -/
structure Cluster where
  /-- The stored resources by name. -/
  objects : List (GoString × Unstructured)
  /-- The revision of the last write. -/
  revision : Nat

/-- The stored resource of a name. -/
def findObject : List (GoString × Unstructured) → GoString → Option Unstructured
  | [], _ => none
  | (n, o) :: rest, name => if n = name then some o else findObject rest name

/-- Stores a resource under a name, replacing the one stored there. -/
def putObject : List (GoString × Unstructured) → GoString → Unstructured →
    List (GoString × Unstructured)
  | [], name, obj => [(name, obj)]
  | (n, o) :: rest, name, obj =>
    if n = name then (name, obj) :: rest else (n, o) :: putObject rest name obj

/-- Modelled from the spec: a write of the cluster API (section 4.4: create and
update are each a single atomic call): the resource is stored with the token of
a new revision. -/
def Cluster.write (c : Cluster) (name : GoString) (obj : Unstructured) :
    Unstructured × Cluster :=
  let stored : Unstructured :=
    ⟨SetNestedField obj.Object (.string (decimal (c.revision + 1))) resourceVersionPath⟩
  (stored, ⟨putObject c.objects name stored, c.revision + 1⟩)

/-- Modelled from the spec: get-by-identity of the cluster API (section 6),
with a `NotFound` classification for an absent resource. -/
def apiGet (name : GoString) (c : Cluster) : Except GoError Unstructured × Cluster :=
  match findObject c.objects name with
  | some o => (.ok o, c)
  | none => (.error (.status .NotFound), c)

/-- Modelled from the spec: create of the cluster API (section 6): the
resource is stored under its own name unless one is stored there already. -/
def apiCreate (obj : Unstructured) (c : Cluster) : Except GoError Unstructured × Cluster :=
  match findObject c.objects obj.GetName with
  | some _ => (.error (.status .AlreadyExists), c)
  | none => (.ok (c.write obj.GetName obj).1, (c.write obj.GetName obj).2)

/-- Modelled from the spec: update of the cluster API (sections 4.4 and 6): a
submitted token that differs from the stored one is a `Conflict` and nothing is
written; with the stored token the resource is replaced. -/
def apiUpdate (obj : Unstructured) (c : Cluster) : Except GoError Unstructured × Cluster :=
  match findObject c.objects obj.GetName with
  | none => (.error (.status .NotFound), c)
  | some current =>
    if obj.GetResourceVersion = current.GetResourceVersion then
      (.ok (c.write obj.GetName obj).1, (c.write obj.GetName obj).2)
    else (.error (.status .Conflict), c)

/-! ## A scripted environment -/

/-- The state of the scripted environment: the cluster, the scratch
directories that exist, and whether the context of the request has been
cancelled. -/
structure Machine where
  /-- The cluster behind the dynamic client. -/
  cluster : Cluster
  /-- The directories that exist. -/
  dirs : List GoString
  /-- Whether the context handed to `Reconcile` has been cancelled. -/
  cancelled : Bool

/-- What the collaborators of one scripted run do. -/
structure Scenario where
  /-- What reading the watched resource returns. -/
  repository : Except GoError GitRepository
  /-- The directory `os.MkdirTemp` creates. -/
  tmpDir : GoString
  /-- The error of the archive fetch, if it fails. -/
  fetchError : Option GoError
  /-- Whether the caller cancels the context while the archive is fetched. -/
  cancelDuringFetch : Bool
  /-- The extracted files in listing order, with what reading each returns. -/
  files : List (GoString × Except GoError (List Byte))
  /-- The error of `os.RemoveAll`, if it fails. -/
  removeAllError : Option GoError
  /-- Another writer of the cluster, who writes right after every lookup. -/
  otherWriter : Cluster → Cluster

/-- The error of a call whose context is cancelled, `context.Canceled`. -/
def contextCanceled : GoError := .other "context canceled"

/-- A call that honours its context is aborted when it is given the context of
the request after that context was cancelled; `context.TODO()` is never
cancelled. -/
def Machine.aborts (m : Machine) (ctx : Context) : Bool :=
  decide (ctx = Context.request) && m.cancelled

/-- The content of the file at a path of the scratch directory. -/
def readScripted (tmpDir : GoString) :
    List (GoString × Except GoError (List Byte)) → GoString → Except GoError (List Byte)
  | [], _ => .error (.other "no such file or directory")
  | (name, content) :: rest, path =>
    if tmpDir ++ ascii "/" ++ name = path then content else readScripted tmpDir rest path

/-- The scripted environment: every call that takes a context honours it, the
filesystem calls behave as the scenario says, and the dynamic client talks to
the cluster API with optimistic concurrency. -/
def scenarioEnv (sc : Scenario) : Env Machine where
  Get := fun ctx _ m =>
    if m.aborts ctx then (.error contextCanceled, m) else (sc.repository, m)
  MkdirTemp := fun _ _ m => (.ok sc.tmpDir, { m with dirs := sc.tmpDir :: m.dirs })
  Fetch := fun _ _ _ m =>
    (sc.fetchError, { m with cancelled := m.cancelled || sc.cancelDuringFetch })
  ReadDir := fun _ m => (.ok (sc.files.map (fun f => f.1)), m)
  ReadFile := fun path m => (readScripted sc.tmpDir sc.files path, m)
  RemoveAll := fun path m =>
    match sc.removeAllError with
    | some err => (some err, m)
    | none => (none, { m with dirs := m.dirs.filter (fun d => decide (d ≠ path)) })
  InClusterConfig := fun m => (none, m)
  NewForConfig := fun m => (none, m)
  ResourceGet := fun ctx name m =>
    if m.aborts ctx then (.error contextCanceled, m)
    else ((apiGet name m.cluster).1, { m with cluster := sc.otherWriter (apiGet name m.cluster).2 })
  ResourceCreate := fun ctx obj m =>
    if m.aborts ctx then (.error contextCanceled, m)
    else ((apiCreate obj m.cluster).1, { m with cluster := (apiCreate obj m.cluster).2 })
  ResourceUpdate := fun ctx obj m =>
    if m.aborts ctx then (.error contextCanceled, m)
    else ((apiUpdate obj m.cluster).1, { m with cluster := (apiUpdate obj m.cluster).2 })
  DirExists := fun path m => decide (path ∈ m.dirs)

/-- The environment of the cluster alone: the dynamic client is built without
error and talks to the cluster API, after each of whose lookups `otherWriter`
writes; the other collaborators are not called by
`applyApplicationDeployment`. -/
def clusterEnv (otherWriter : Cluster → Cluster) : Env Cluster where
  Get := fun _ _ c => (.error (.status .NotFound), c)
  MkdirTemp := fun _ _ c => (.error (.other "not available"), c)
  Fetch := fun _ _ _ c => (some (.other "not available"), c)
  ReadDir := fun _ c => (.error (.other "not available"), c)
  ReadFile := fun _ c => (.error (.other "not available"), c)
  RemoveAll := fun _ c => (none, c)
  InClusterConfig := fun c => (none, c)
  NewForConfig := fun c => (none, c)
  ResourceGet := fun _ name c => ((apiGet name c).1, otherWriter (apiGet name c).2)
  ResourceCreate := fun _ obj c => apiCreate obj c
  ResourceUpdate := fun _ obj c => apiUpdate obj c
  DirExists := fun _ _ => false

/-! ## Example data -/

/-- A resource stored under `fluxdemo` with token `7`. -/
def demoStored : Unstructured :=
  ⟨SetNestedField (envelopeFields (ascii "old")) (.string (ascii "7")) resourceVersionPath⟩

/-- A cluster that holds `demoStored`. -/
def demoCluster : Cluster := ⟨[(ascii "fluxdemo", demoStored)], 7⟩

/-- A cluster that holds nothing. -/
def emptyCluster : Cluster := ⟨[], 0⟩


/-- Another writer of the cluster: it stores its own spec under `fluxdemo`. -/
def rivalWriter (c : Cluster) : Cluster :=
  (c.write (ascii "fluxdemo") ⟨envelopeFields (ascii "theirs")⟩).2

/-- What `rivalWriter` leaves stored in `demoCluster`. -/
def rivalStored : Unstructured :=
  (demoCluster.write (ascii "fluxdemo") ⟨envelopeFields (ascii "theirs")⟩).1

/-- An artifact of revision `rev1`. -/
def demoArtifact : Artifact :=
  ⟨ascii "http://source-controller/repo.tar.gz", ascii "sha256:0", ascii "rev1"⟩

/-- A source that has published `demoArtifact`. -/
def demoRepository : GitRepository := ⟨ascii "repo", some demoArtifact⟩

/-- A source that has published no artifact yet. -/
def pendingRepository : GitRepository := ⟨ascii "repo", none⟩

/-- The request for the source `flux-system/repo`. -/
def demoRequest : Request := ⟨⟨ascii "flux-system", ascii "repo"⟩⟩

/-- A machine with an empty cluster, no scratch directory and a live context. -/
def freshMachine : Machine := ⟨emptyCluster, [], false⟩

/-- Scenario A: the archive holds the one entry `app.json` with payload `P`,
and every collaborator succeeds. -/
def scenarioA : Scenario where
  repository := .ok demoRepository
  tmpDir := ascii "/tmp/repo1"
  fetchError := none
  cancelDuringFetch := false
  files := [(ascii "app.json", .ok (ascii "P"))]
  removeAllError := none
  otherWriter := id


/-- The number of upserts in the log that returned without error. -/
def successes : List Call → Nat
  | [] => 0
  | .applied _ none :: rest => successes rest + 1
  | _ :: rest => successes rest

/-- A scenario whose archive holds two entries. -/
def scenarioTwo : Scenario :=
  { scenarioA with files := [(ascii "a.json", .ok (ascii "A")), (ascii "b.json", .ok (ascii "B"))] }

/-- Scenario C: the archive fetch fails after its retries. -/
def scenarioC : Scenario :=
  { scenarioA with fetchError := some (.other "context deadline exceeded") }

/-- A scenario in which `os.RemoveAll` fails and leaves the directory. -/
def scenarioStuck : Scenario :=
  { scenarioA with removeAllError := some (.other "permission denied") }

/-- The objects of the log that were submitted to the cluster, by `Create` or
by `Update`, the oldest first. -/
def submitted : List Call → List Unstructured
  | [] => []
  | .resourceCreate _ obj :: rest => obj :: submitted rest
  | .resourceUpdate _ obj :: rest => obj :: submitted rest
  | _ :: rest => submitted rest

/-- The field `spec.template` of an object, `none` when it has none. -/
def specTemplate (u : Unstructured) : Option JSON :=
  NestedFieldNoCopy u.Object [ascii "spec", ascii "template"]

/-- A scenario whose archive holds an entry that is valid UTF-8 and one that is
not. -/
def scenarioMixed : Scenario :=
  { scenarioA with
    files := [(ascii "a.json", .ok (ascii "A")), (ascii "b.bin", .ok [byte 255])] }


/-! ## Lemmas -/

theorem byte_val (b : Byte) : byte b.val = b := by
  apply Fin.ext; simp [byte]

theorem byte_eq_of (n : Nat) (b : Byte) (h : n = b.val) : byte n = b := by
  subst h; exact byte_val b

theorem first_none (p0 : Nat) (h : p0 < 0xC2 ∨ 0xF4 < p0) : first p0 = none := by
  unfold first; split_ifs <;> first | rfl | omega

theorem first_two (p0 : Nat) (h1 : 0xC2 ≤ p0) (h2 : p0 < 0xE0) :
    first p0 = some (2, 0x80, 0xBF) := by
  unfold first; split_ifs <;> first | rfl | omega

theorem first_three (p0 : Nat) (h1 : 0xE0 ≤ p0) (h2 : p0 < 0xF0) :
    first p0 = some (3, if p0 = 0xE0 then 0xA0 else 0x80, if p0 = 0xED then 0x9F else 0xBF) := by
  unfold first; split_ifs <;> first | rfl | omega

theorem first_four (p0 : Nat) (h1 : 0xF0 ≤ p0) (h2 : p0 ≤ 0xF4) :
    first p0 = some (4, if p0 = 0xF0 then 0x90 else 0x80, if p0 = 0xF4 then 0x8F else 0xBF) := by
  unfold first; split_ifs <;> first | rfl | omega

theorem DecodeRune_two (p0 b1 : Byte) (t : List Byte) (h1 : 0xC2 ≤ p0.val) (h2 : p0.val < 0xE0) :
    DecodeRune (p0 :: b1 :: t) =
      if b1.val < 0x80 ∨ 0xBF < b1.val then (RuneError, 1)
      else ((p0.val % 32) * 64 + b1.val % 64, 2) := by
  have h0 : ¬ p0.val < 0x80 := by omega
  simp only [DecodeRune, h0, if_false, first_two p0.val h1 h2, le_refl, if_true]

theorem isCont_false_iff (b : Nat) : (!isCont b) = true ↔ (b < 0x80 ∨ 0xBF < b) := by
  simp only [isCont, Bool.not_eq_true', Bool.and_eq_false_iff, decide_eq_false_iff_not, not_le]

theorem DecodeRune_three (p0 b1 b2 : Byte) (t : List Byte) (h1 : 0xE0 ≤ p0.val)
    (h2 : p0.val < 0xF0) :
    DecodeRune (p0 :: b1 :: b2 :: t) =
      if b1.val < 0x80 ∨ 0xBF < b1.val ∨ (p0.val = 0xE0 ∧ b1.val < 0xA0)
          ∨ (p0.val = 0xED ∧ 0x9F < b1.val) then (RuneError, 1)
      else if b2.val < 0x80 ∨ 0xBF < b2.val then (RuneError, 1)
      else ((p0.val % 16) * 4096 + (b1.val % 64) * 64 + b2.val % 64, 3) := by
  have h0 : ¬ p0.val < 0x80 := by omega
  simp only [DecodeRune, h0, if_false, first_three p0.val h1 h2, le_refl, if_true,
    show ¬ (3 ≤ 2) by omega, isCont_false_iff]
  have hc : (b1.val < (if p0.val = 0xE0 then 0xA0 else 0x80)
      ∨ (if p0.val = 0xED then 0x9F else 0xBF) < b1.val) ↔
      (b1.val < 0x80 ∨ 0xBF < b1.val ∨ (p0.val = 0xE0 ∧ b1.val < 0xA0)
          ∨ (p0.val = 0xED ∧ 0x9F < b1.val)) := by
    split_ifs <;> omega
  simp only [hc]

theorem DecodeRune_four (p0 b1 b2 b3 : Byte) (t : List Byte) (h1 : 0xF0 ≤ p0.val)
    (h2 : p0.val ≤ 0xF4) :
    DecodeRune (p0 :: b1 :: b2 :: b3 :: t) =
      if b1.val < 0x80 ∨ 0xBF < b1.val ∨ (p0.val = 0xF0 ∧ b1.val < 0x90)
          ∨ (p0.val = 0xF4 ∧ 0x8F < b1.val) then (RuneError, 1)
      else if b2.val < 0x80 ∨ 0xBF < b2.val then (RuneError, 1)
      else if b3.val < 0x80 ∨ 0xBF < b3.val then (RuneError, 1)
      else ((p0.val % 8) * 262144 + (b1.val % 64) * 4096 + (b2.val % 64) * 64
        + b3.val % 64, 4) := by
  have h0 : ¬ p0.val < 0x80 := by omega
  simp only [DecodeRune, h0, if_false, first_four p0.val h1 h2, show ¬ (4 ≤ 2) by omega,
    show ¬ (4 ≤ 3) by omega, isCont_false_iff]
  have hc : (b1.val < (if p0.val = 0xF0 then 0x90 else 0x80)
      ∨ (if p0.val = 0xF4 then 0x8F else 0xBF) < b1.val) ↔
      (b1.val < 0x80 ∨ 0xBF < b1.val ∨ (p0.val = 0xF0 ∧ b1.val < 0x90)
          ∨ (p0.val = 0xF4 ∧ 0x8F < b1.val)) := by
    split_ifs <;> omega
  simp only [hc]

theorem DecodeRune_invalid (p0 : Byte) (t : List Byte)
    (h : (0x80 ≤ p0.val ∧ p0.val < 0xC2) ∨ 0xF4 < p0.val) :
    DecodeRune (p0 :: t) = (RuneError, 1) := by
  have h0 : ¬ p0.val < 0x80 := by omega
  simp only [DecodeRune, h0, if_false, first_none p0.val (by omega)]

theorem DecodeRune_trunc1 (p0 : Byte) (h0 : 0x80 ≤ p0.val) :
    DecodeRune [p0] = (RuneError, 1) := by
  have h0 : ¬ p0.val < 0x80 := by omega
  simp only [DecodeRune, h0, if_false]
  cases first p0.val <;> rfl

theorem DecodeRune_trunc2 (p0 b1 : Byte) (h0 : 0xE0 ≤ p0.val) :
    DecodeRune [p0, b1] = (RuneError, 1) := by
  have h0 : ¬ p0.val < 0x80 := by omega
  by_cases h4 : 0xF4 < p0.val
  · exact DecodeRune_invalid p0 [b1] (Or.inr h4)
  · by_cases h3 : p0.val < 0xF0
    · simp only [DecodeRune, h0, if_false, first_three p0.val (by omega) h3,
        show ¬ (3 ≤ 2) by omega]
      split_ifs <;> rfl
    · simp only [DecodeRune, h0, if_false, first_four p0.val (by omega) (by omega),
        show ¬ (4 ≤ 2) by omega]
      split_ifs <;> rfl

theorem DecodeRune_trunc3 (p0 b1 b2 : Byte) (h0 : 0xF0 ≤ p0.val) :
    DecodeRune [p0, b1, b2] = (RuneError, 1) := by
  have h0 : ¬ p0.val < 0x80 := by omega
  by_cases h4 : 0xF4 < p0.val
  · exact DecodeRune_invalid p0 [b1, b2] (Or.inr h4)
  · simp only [DecodeRune, h0, if_false, first_four p0.val (by omega) (by omega),
      show ¬ (4 ≤ 2) by omega, show ¬ (4 ≤ 3) by omega]
    split_ifs <;> rfl

theorem DecodeRune_spec (s : List Byte) (hs : s ≠ [])
    (h : ¬((DecodeRune s).1 = RuneError ∧ (DecodeRune s).2 = 1)) :
    1 ≤ (DecodeRune s).2 ∧ (DecodeRune s).2 ≤ s.length ∧
      EncodeRune (DecodeRune s).1 = s.take (DecodeRune s).2 ∧
      ∀ x, DecodeRune (s.take (DecodeRune s).2 ++ x) = DecodeRune s := by
  match s, hs with
  | p0 :: rest, _ =>
    have hp := p0.isLt
    by_cases h0 : p0.val < 0x80
    · simp only [DecodeRune, h0, if_true] at h ⊢
      refine ⟨by omega, by simp, ?_, ?_⟩
      · simp [EncodeRune, show p0.val ≤ 0x7F by omega, byte_val]
      · intro x; simp [DecodeRune, h0]
    by_cases hinv : p0.val < 0xC2 ∨ 0xF4 < p0.val
    · exfalso; apply h; rw [DecodeRune_invalid p0 rest (by omega)]; exact ⟨rfl, rfl⟩
    rcases rest with _ | ⟨b1, rest1⟩
    · exfalso; apply h; rw [DecodeRune_trunc1 p0 (by omega)]; exact ⟨rfl, rfl⟩
    have hb1 := b1.isLt
    by_cases h2 : p0.val < 0xE0
    · rw [DecodeRune_two p0 b1 rest1 (by omega) h2] at h ⊢
      by_cases hc : b1.val < 0x80 ∨ 0xBF < b1.val
      · rw [if_pos hc] at h; exact absurd ⟨rfl, rfl⟩ h
      · rw [if_neg hc]
        refine ⟨by simp, by simp, ?_, ?_⟩
        · have e1 : ¬ (p0.val % 32 * 64 + b1.val % 64 ≤ 0x7F) := by omega
          have e2 : p0.val % 32 * 64 + b1.val % 64 ≤ 0x7FF := by omega
          simp only [EncodeRune, e1, e2, if_false, if_true, List.take_succ_cons, List.take_zero]
          rw [byte_eq_of _ p0 (by omega), byte_eq_of _ b1 (by omega)]
        · intro x
          simp only [List.take_succ_cons, List.take_zero, List.cons_append, List.nil_append]
          rw [DecodeRune_two p0 b1 x (by omega) h2, if_neg hc]
    rcases rest1 with _ | ⟨b2, rest2⟩
    · exfalso; apply h; rw [DecodeRune_trunc2 p0 b1 (by omega)]; exact ⟨rfl, rfl⟩
    have hb2 := b2.isLt
    by_cases h3 : p0.val < 0xF0
    · rw [DecodeRune_three p0 b1 b2 rest2 (by omega) h3] at h ⊢
      by_cases hc : b1.val < 0x80 ∨ 0xBF < b1.val ∨ (p0.val = 0xE0 ∧ b1.val < 0xA0)
          ∨ (p0.val = 0xED ∧ 0x9F < b1.val)
      · rw [if_pos hc] at h; exact absurd ⟨rfl, rfl⟩ h
      rw [if_neg hc] at h ⊢
      by_cases hd : b2.val < 0x80 ∨ 0xBF < b2.val
      · rw [if_pos hd] at h; exact absurd ⟨rfl, rfl⟩ h
      rw [if_neg hd]
      refine ⟨by simp, by simp, ?_, ?_⟩
      · have e1 : ¬ (p0.val % 16 * 4096 + b1.val % 64 * 64 + b2.val % 64 ≤ 0x7F) := by omega
        have e2 : ¬ (p0.val % 16 * 4096 + b1.val % 64 * 64 + b2.val % 64 ≤ 0x7FF) := by omega
        have e3 : ¬ (p0.val % 16 * 4096 + b1.val % 64 * 64 + b2.val % 64 > MaxRune ∨
            (0xD800 ≤ p0.val % 16 * 4096 + b1.val % 64 * 64 + b2.val % 64 ∧
              p0.val % 16 * 4096 + b1.val % 64 * 64 + b2.val % 64 ≤ 0xDFFF)) := by
          simp only [MaxRune]; omega
        have e4 : p0.val % 16 * 4096 + b1.val % 64 * 64 + b2.val % 64 ≤ 0xFFFF := by omega
        simp only [EncodeRune, e1, e2, e3, e4, if_false, if_true, List.take_succ_cons,
          List.take_zero]
        rw [byte_eq_of _ p0 (by omega), byte_eq_of _ b1 (by omega),
          byte_eq_of _ b2 (by omega)]
      · intro x
        simp only [List.take_succ_cons, List.take_zero, List.cons_append, List.nil_append]
        rw [DecodeRune_three p0 b1 b2 x (by omega) h3, if_neg hc, if_neg hd]
    rcases rest2 with _ | ⟨b3, rest3⟩
    · exfalso; apply h; rw [DecodeRune_trunc3 p0 b1 b2 (by omega)]; exact ⟨rfl, rfl⟩
    have hb3 := b3.isLt
    rw [DecodeRune_four p0 b1 b2 b3 rest3 (by omega) (by omega)] at h ⊢
    by_cases hc : b1.val < 0x80 ∨ 0xBF < b1.val ∨ (p0.val = 0xF0 ∧ b1.val < 0x90)
        ∨ (p0.val = 0xF4 ∧ 0x8F < b1.val)
    · rw [if_pos hc] at h; exact absurd ⟨rfl, rfl⟩ h
    rw [if_neg hc] at h ⊢
    by_cases hd : b2.val < 0x80 ∨ 0xBF < b2.val
    · rw [if_pos hd] at h; exact absurd ⟨rfl, rfl⟩ h
    rw [if_neg hd] at h ⊢
    by_cases he : b3.val < 0x80 ∨ 0xBF < b3.val
    · rw [if_pos he] at h; exact absurd ⟨rfl, rfl⟩ h
    rw [if_neg he]
    refine ⟨by simp, by simp, ?_, ?_⟩
    · have e1 : ¬ (p0.val % 8 * 262144 + b1.val % 64 * 4096 + b2.val % 64 * 64
          + b3.val % 64 ≤ 0x7F) := by omega
      have e2 : ¬ (p0.val % 8 * 262144 + b1.val % 64 * 4096 + b2.val % 64 * 64
          + b3.val % 64 ≤ 0x7FF) := by omega
      have e3 : ¬ (p0.val % 8 * 262144 + b1.val % 64 * 4096 + b2.val % 64 * 64
          + b3.val % 64 > MaxRune ∨
          (0xD800 ≤ p0.val % 8 * 262144 + b1.val % 64 * 4096 + b2.val % 64 * 64
            + b3.val % 64 ∧
            p0.val % 8 * 262144 + b1.val % 64 * 4096 + b2.val % 64 * 64
              + b3.val % 64 ≤ 0xDFFF)) := by
        simp only [MaxRune]; omega
      have e4 : ¬ (p0.val % 8 * 262144 + b1.val % 64 * 4096 + b2.val % 64 * 64
          + b3.val % 64 ≤ 0xFFFF) := by omega
      simp only [EncodeRune, e1, e2, e3, e4, if_false, List.take_succ_cons,
        List.take_zero]
      rw [byte_eq_of _ p0 (by omega), byte_eq_of _ b1 (by omega),
        byte_eq_of _ b2 (by omega), byte_eq_of _ b3 (by omega)]
    · intro x
      simp only [List.take_succ_cons, List.take_zero, List.cons_append, List.nil_append]
      rw [DecodeRune_four p0 b1 b2 b3 x (by omega) (by omega), if_neg hc, if_neg hd,
        if_neg he]
theorem val_ofNat_byte (n : Nat) : (no_index (OfNat.ofNat n) : Byte).val = n % 256 := rfl

theorem unquoteLoop_ascii (b : Byte) (hb : b.val < 0x80) (m : Nat) (tail : List Byte) :
    unquoteLoop (m + 1) ((if htmlSafe b.val then [b] else escapeASCII b) ++ tail)
      = emit [b] (unquoteLoop m tail) := by
  obtain ⟨v, hv⟩ := b
  simp only at hb
  interval_cases v <;>
    simp +decide [unquoteLoop, htmlSafe, escapeASCII, getu4, hex, hexVal, byte, IsSurrogate,
      EncodeRune, val_ofNat_byte]

theorem chunk_length_pos (b : Byte) :
    1 ≤ (if htmlSafe b.val then [b] else escapeASCII b).length := by
  unfold escapeASCII
  split_ifs <;> simp

theorem unquoteLoop_replacement (m : Nat) (tail : List Byte) :
    unquoteLoop (m + 1)
        ([byte 92, byte 117, byte 102, byte 102, byte 102, byte 100] ++ tail)
      = emit [byte 0xEF, byte 0xBF, byte 0xBD] (unquoteLoop m tail) := by
  simp +decide [unquoteLoop, getu4, hexVal, byte, IsSurrogate, EncodeRune, val_ofNat_byte,
    MaxRune]

theorem unquoteLoop_separator (r : Nat) (hr : r = 0x2028 ∨ r = 0x2029) (m : Nat)
    (tail : List Byte) :
    unquoteLoop (m + 1) ([byte 92, byte 117, byte 50, byte 48, byte 50, hex (r % 16)] ++ tail)
      = emit (EncodeRune r) (unquoteLoop m tail) := by
  rcases hr with rfl | rfl <;>
    simp +decide [unquoteLoop, getu4, hexVal, hex, byte, IsSurrogate, EncodeRune,
      val_ofNat_byte, MaxRune]

theorem unquoteLoop_rune (c : Byte) (rest : List Byte) (hc : ¬ c.val < 0x80) (m : Nat) :
    unquoteLoop (m + 1) (c :: rest)
      = emit (EncodeRune (DecodeRune (c :: rest)).1)
          (unquoteLoop m ((c :: rest).drop (DecodeRune (c :: rest)).2)) := by
  have h1 : ¬ c.val = 34 := by omega
  have h2 : ¬ c.val = 92 := by omega
  have h3 : ¬ c.val < 0x20 := by omega
  simp only [unquoteLoop, h1, h2, h3, hc, if_false]

theorem unquoteLoop_quote (m : Nat) (t : List Byte) :
    unquoteLoop (m + 1) (byte 34 :: t) = some ([], t) := rfl

theorem unquoteLoop_appendStringLoop : ∀ (n : Nat) (s : List Byte), s.length ≤ n →
    ∀ (m : Nat) (t : List Byte), (appendStringLoop n s).length < m →
      unquoteLoop m (appendStringLoop n s ++ byte 34 :: t) = some (coerceUTF8 n s, t) := by
  intro n
  induction n with
  | zero =>
    intro s _ m t hm
    obtain ⟨m, rfl⟩ : ∃ k, m = k + 1 := ⟨m - 1, by omega⟩
    simp only [appendStringLoop, coerceUTF8, List.nil_append]
    exact unquoteLoop_quote m t
  | succ n ih =>
    intro s hs m t hm
    obtain ⟨m, rfl⟩ : ∃ k, m = k + 1 := ⟨m - 1, by omega⟩
    rcases s with _ | ⟨b, rest⟩
    · simp only [appendStringLoop, coerceUTF8, List.nil_append]
      exact unquoteLoop_quote m t
    · have hlen : rest.length ≤ n := by simpa using hs
      by_cases hb : b.val < 0x80
      · have hd : DecodeRune (b :: rest) = (b.val, 1) := by simp [DecodeRune, hb]
        have hne : ¬ (b.val = RuneError) := by simp only [RuneError]; omega
        simp only [appendStringLoop, hb, if_true, List.append_assoc] at hm ⊢
        rw [unquoteLoop_ascii b hb m]
        have hpos := chunk_length_pos b
        rw [List.length_append] at hm
        rw [ih rest hlen m t (by omega)]
        simp [coerceUTF8, hd, hne, emit]
      · by_cases hinv : (DecodeRune (b :: rest)).1 = RuneError ∧ (DecodeRune (b :: rest)).2 = 1
        · simp only [appendStringLoop, hb, hinv, if_false, if_true, and_self,
            List.append_assoc] at hm ⊢
          rw [unquoteLoop_replacement m]
          rw [List.length_append] at hm
          rw [ih rest hlen m t (by simp at hm; omega)]
          simp [coerceUTF8, hinv, emit]
        · obtain ⟨h1, h2, h3, h4⟩ := DecodeRune_spec (b :: rest) (by simp) hinv
          have hdrop : ((b :: rest).drop (DecodeRune (b :: rest)).2).length ≤ n := by
            rw [List.length_drop]; simp only [List.length_cons] at hs ⊢; omega
          have htake : ((b :: rest).take (DecodeRune (b :: rest)).2).length
              = (DecodeRune (b :: rest)).2 := by
            rw [List.length_take]; omega
          by_cases hsep : (DecodeRune (b :: rest)).1 = 0x2028 ∨ (DecodeRune (b :: rest)).1 = 0x2029
          · simp only [appendStringLoop, hb, hinv, hsep, if_false, if_true,
              List.append_assoc] at hm ⊢
            rw [unquoteLoop_separator _ hsep m]
            rw [List.length_append] at hm
            rw [ih _ hdrop m t (by simp at hm; omega)]
            simp [coerceUTF8, hinv, emit, h3]
          · simp only [appendStringLoop, hb, hinv, hsep, if_false, List.append_assoc] at hm ⊢
            have hcons : ∃ c r, (b :: rest).take (DecodeRune (b :: rest)).2 = c :: r ∧ c = b := by
              obtain ⟨k, hk⟩ : ∃ k, (DecodeRune (b :: rest)).2 = k + 1 :=
                ⟨(DecodeRune (b :: rest)).2 - 1, by omega⟩
              rw [hk]; exact ⟨b, rest.take k, by simp, rfl⟩
            obtain ⟨c, r, hcr, hcb⟩ := hcons
            have key := unquoteLoop_rune b
              (r ++ (appendStringLoop n ((b :: rest).drop (DecodeRune (b :: rest)).2)
                ++ byte 34 :: t)) hb m
            have hdec := h4 (appendStringLoop n ((b :: rest).drop (DecodeRune (b :: rest)).2)
                ++ byte 34 :: t)
            rw [hcr, hcb] at hdec
            simp only [List.cons_append] at hdec
            rw [hcr, hcb]
            simp only [List.cons_append]
            rw [key, hdec]
            have hd2 : List.drop (DecodeRune (b :: rest)).2
                (b :: (r ++ (appendStringLoop n ((b :: rest).drop (DecodeRune (b :: rest)).2)
                  ++ byte 34 :: t)))
                = appendStringLoop n ((b :: rest).drop (DecodeRune (b :: rest)).2)
                  ++ byte 34 :: t := by
              have : b :: (r ++ (appendStringLoop n ((b :: rest).drop (DecodeRune (b :: rest)).2)
                  ++ byte 34 :: t)) = (b :: rest).take (DecodeRune (b :: rest)).2 ++
                  (appendStringLoop n ((b :: rest).drop (DecodeRune (b :: rest)).2)
                  ++ byte 34 :: t) := by rw [hcr, hcb]; rfl
              rw [this, List.drop_append_of_le_length (by omega), List.drop_of_length_le (by omega)]
              rfl
            rw [hd2]
            rw [List.length_append] at hm
            rw [ih _ hdrop m t (by omega)]
            simp [coerceUTF8, hinv, emit, h3]
theorem readString_appendString (s : GoString) (tail : List Byte) :
    readString (appendString s ++ tail) = some (toValidUTF8 s, tail) := by
  have h : appendString s ++ tail
      = byte 34 :: (appendStringLoop s.length s ++ byte 34 :: tail) := by
    simp [appendString]
  rw [h]
  simp only [readString, byte, Nat.reduceMod, if_true]
  exact unquoteLoop_appendStringLoop s.length s (le_refl _) _ tail (by
    simp only [List.length_cons, List.length_append]; omega)

theorem coerceUTF8_of_valid : ∀ (n : Nat) (s : List Byte), validFrom n s = true →
    coerceUTF8 n s = s := by
  intro n
  induction n with
  | zero =>
    intro s h
    cases s with
    | nil => rfl
    | cons b rest => simp [validFrom] at h
  | succ n ih =>
    intro s h
    cases s with
    | nil => rfl
    | cons b rest =>
      simp only [validFrom] at h
      by_cases hinv : (DecodeRune (b :: rest)).1 = RuneError ∧ (DecodeRune (b :: rest)).2 = 1
      · simp [hinv] at h
      · rw [if_neg hinv] at h
        simp only [coerceUTF8, hinv, if_false]
        rw [ih _ h, List.take_append_drop]

theorem toValidUTF8_of_valid (s : GoString) (h : Valid s = true) : toValidUTF8 s = s :=
  coerceUTF8_of_valid s.length s h

theorem skipWS_appendString (s : GoString) (tail : List Byte) :
    skipWS (appendString s ++ tail) = appendString s ++ tail := by
  simp +decide [appendString, skipWS, isSpace, byte, val_ofNat_byte]

theorem parseValue_string (fuel depth : Nat) (s : GoString) (tail : List Byte) :
    parseValue (fuel + 1) depth (appendString s ++ tail)
      = some (.string (toValidUTF8 s), tail) := by
  have h := readString_appendString s tail
  have hw := skipWS_appendString s tail
  have hc : appendString s ++ tail
      = byte 34 :: (appendStringLoop s.length s ++ byte 34 :: tail) := by
    simp [appendString]
  rw [hc] at h hw
  rw [parseValue, hc, hw]
  simp only [byte, Nat.reduceMod] at h ⊢
  simp only [h]
  simp

theorem parseValue_object (fuel depth : Nat) (k : GoString) (tail : List Byte)
    (hd : depth + 1 ≤ maxNestingDepth) :
    parseValue (fuel + 1) depth (byte 123 :: (appendString k ++ tail))
      = parseMembers fuel (depth + 1) (appendString k ++ tail) [] := by
  have hc : appendString k ++ tail
      = byte 34 :: (appendStringLoop k.length k ++ byte 34 :: tail) := by
    simp [appendString]
  have hw := skipWS_appendString k tail
  rw [hc] at hw ⊢
  have hd' : ¬ (depth + 1 > maxNestingDepth) := by omega
  rw [parseValue]
  simp +decide [skipWS, isSpace, byte, val_ofNat_byte, hd']

theorem parseMembers_step (fuel depth : Nat) (k : GoString) (tail : List Byte) (acc : Fields) :
    parseMembers (fuel + 1) depth (appendString k ++ byte 58 :: tail) acc
      = match parseValue fuel depth tail with
        | none => none
        | some (v, r3) =>
          match skipWS r3 with
          | [] => none
          | d :: r4 =>
            if d.val = 44 then parseMembers fuel depth r4 (setField acc (toValidUTF8 k) v)
            else if d.val = 125 then some (.object (setField acc (toValidUTF8 k) v), r4)
            else none := by
  rw [parseMembers, skipWS_appendString, readString_appendString]
  simp +decide [skipWS, isSpace, byte, val_ofNat_byte]
theorem envelope_eq (p : GoString) : envelope p = .object (envelopeFields p) := by
  rfl

theorem toValidUTF8_consts :
    toValidUTF8 (ascii "apiVersion") = ascii "apiVersion" ∧
    toValidUTF8 (ascii "radapp.io/v1alpha3") = ascii "radapp.io/v1alpha3" ∧
    toValidUTF8 (ascii "kind") = ascii "kind" ∧
    toValidUTF8 (ascii "ApplicationDeployment") = ascii "ApplicationDeployment" ∧
    toValidUTF8 (ascii "metadata") = ascii "metadata" ∧
    toValidUTF8 (ascii "name") = ascii "name" ∧
    toValidUTF8 (ascii "fluxdemo") = ascii "fluxdemo" ∧
    toValidUTF8 (ascii "namespace") = ascii "namespace" ∧
    toValidUTF8 (ascii "default") = ascii "default" ∧
    toValidUTF8 (ascii "spec") = ascii "spec" ∧
    toValidUTF8 (ascii "template") = ascii "template" := by
  decide

theorem skipWS_comma (t : List Byte) : skipWS (byte 44 :: t) = byte 44 :: t := rfl

theorem skipWS_brace (t : List Byte) : skipWS (byte 125 :: t) = byte 125 :: t := rfl

theorem parseMembers_value_comma (fuel depth : Nat) (k : GoString) (x rest : List Byte)
    (acc : Fields) (v : JSON) (h : parseValue fuel depth x = some (v, byte 44 :: rest)) :
    parseMembers (fuel + 1) depth (appendString k ++ byte 58 :: x) acc
      = parseMembers fuel depth rest (setField acc (toValidUTF8 k) v) := by
  rw [parseMembers_step, h]
  rfl

theorem parseMembers_value_close (fuel depth : Nat) (k : GoString) (x rest : List Byte)
    (acc : Fields) (v : JSON) (h : parseValue fuel depth x = some (v, byte 125 :: rest)) :
    parseMembers (fuel + 1) depth (appendString k ++ byte 58 :: x) acc
      = some (.object (setField acc (toValidUTF8 k) v), rest) := by
  rw [parseMembers_step, h]
  rfl

theorem parseValue_metadata (f : Nat) (rest : List Byte) :
    parseValue (f + 4) 1
        (byte 123 :: (appendString (ascii "name") ++ byte 58 ::
          (appendString (ascii "fluxdemo") ++ byte 44 ::
            (appendString (ascii "namespace") ++ byte 58 ::
              (appendString (ascii "default") ++ byte 125 :: rest)))))
      = some (.object [(ascii "name", .string (ascii "fluxdemo")),
          (ascii "namespace", .string (ascii "default"))], rest) := by
  obtain ⟨_, _, _, _, _, c6, c7, c8, c9, _, _⟩ := toValidUTF8_consts
  rw [parseValue_object _ _ _ _ (by decide)]
  rw [parseMembers_value_comma (f + 2) 2 _ _ _ _ _ (parseValue_string (f + 1) 2 _ _)]
  rw [parseMembers_value_close (f + 1) 2 _ _ _ _ _ (parseValue_string f 2 _ _)]
  rw [c6, c7, c8, c9]
  rfl

theorem parseValue_spec (f : Nat) (p : GoString) (rest : List Byte) :
    parseValue (f + 3) 1
        (byte 123 :: (appendString (ascii "template") ++ byte 58 ::
          (appendString p ++ byte 125 :: rest)))
      = some (.object [(ascii "template", .string (toValidUTF8 p))], rest) := by
  obtain ⟨_, _, _, _, _, _, _, _, _, _, c11⟩ := toValidUTF8_consts
  rw [parseValue_object _ _ _ _ (by decide)]
  rw [parseMembers_value_close (f + 1) 2 _ _ _ _ _ (parseValue_string f 2 _ _)]
  rw [c11]
  rfl

theorem parseValue_envelope (f : Nat) (p : GoString) (tail : List Byte) :
    parseValue (f + 10) 0 (encodeValue (envelope p) ++ tail)
      = some (.object (envelopeFields (toValidUTF8 p)), tail) := by
  obtain ⟨c1, c2, c3, c4, c5, _, _, _, _, c10, _⟩ := toValidUTF8_consts
  rw [envelope_eq]
  simp only [envelopeFields, encodeValue, encodeFields, List.append_assoc, List.cons_append,
    List.nil_append]
  rw [parseValue_object _ _ _ _ (by decide)]
  rw [parseMembers_value_comma (f + 8) 1 _ _ _ _ _ (parseValue_string (f + 7) 1 _ _)]
  rw [parseMembers_value_comma (f + 7) 1 _ _ _ _ _ (parseValue_string (f + 6) 1 _ _)]
  rw [parseMembers_value_comma (f + 6) 1 _ _ _ _ _ (parseValue_metadata (f + 2) _)]
  rw [parseMembers_value_close (f + 5) 1 _ _ _ _ _ (parseValue_spec (f + 2) p _)]
  rw [c1, c2, c3, c4, c5, c10]
  rfl

theorem Unmarshal_envelope (p : GoString) :
    Unmarshal (encodeValue (envelope p)) = .ok (envelopeFields (toValidUTF8 p)) := by
  have hlen : ∃ f, (encodeValue (envelope p)).length + 1 = f + 10 := by
    refine ⟨(encodeValue (envelope p)).length - 9, ?_⟩
    have : 9 ≤ (encodeValue (envelope p)).length := by
      rw [envelope_eq]
      simp only [envelopeFields, encodeValue, encodeFields, appendString, List.length_cons,
        List.length_append]
      omega
    omega
  obtain ⟨f, hf⟩ := hlen
  have h := parseValue_envelope f p []
  rw [List.append_nil] at h
  simp only [Unmarshal, hf, h, skipWS]

/-! ## The claims -/

theorem creates_append (a b : List Call) : creates (a ++ b) = creates a ++ creates b := by
  induction a with
  | nil => rfl
  | cons c rest ih => cases c <;> simp [creates, ih]

theorem updates_append (a b : List Call) : updates (a ++ b) = updates a ++ updates b := by
  induction a with
  | nil => rfl
  | cons c rest ih => cases c <;> simp [updates, ih]

theorem lookups_append (a b : List Call) : lookups (a ++ b) = lookups a ++ lookups b := by
  induction a with
  | nil => rfl
  | cons c rest ih => cases c <;> simp [lookups, ih]

theorem upserts_append (a b : List Call) : upserts (a ++ b) = upserts a ++ upserts b := by
  induction a with
  | nil => rfl
  | cons c rest ih => cases c <;> simp [upserts, ih]

theorem removals_append (a b : List Call) : removals (a ++ b) = removals a ++ removals b := by
  induction a with
  | nil => rfl
  | cons c rest ih => cases c <;> simp [removals, ih]

theorem setResourceVersion_envelope (q t : GoString) :
    (Unstructured.SetResourceVersion ⟨envelopeFields q⟩ t).GetResourceVersion = t ∧
      RemoveNestedField (Unstructured.SetResourceVersion ⟨envelopeFields q⟩ t).Object
        resourceVersionPath = envelopeFields q := by
  cases t with
  | nil => exact ⟨rfl, rfl⟩
  | cons b rest => exact ⟨rfl, rfl⟩

/-- C1: when the lookup of `applyApplicationDeployment` succeeds, the call
issues exactly one `Update` and no `Create`; the object it submits carries the
`resourceVersion` of the object the lookup returned, and with that token removed
it is the decoded spec. -/
theorem applyApplicationDeployment_update {σ : Type} (env : Env σ) (ctx : Context)
    (p : GoString) (w : World σ) (s1 s2 s3 : σ) (getObj : Unstructured)
    (hcfg : env.InClusterConfig w.state = (none, s1))
    (hnew : env.NewForConfig s1 = (none, s2))
    (hget : env.ResourceGet .todo (ascii "fluxdemo") s2 = (.ok getObj, s3)) :
    ∃ (spec : Fields) (submitted : Unstructured),
      Unmarshal (jsonOutput p) = .ok spec ∧
      (applyApplicationDeployment env ctx (jsonOutput p) w).2.calls
        = w.calls ++ [.inClusterConfig, .newForConfig,
            .resourceGet .todo (ascii "fluxdemo"), .resourceUpdate .todo submitted] ∧
      updates (applyApplicationDeployment env ctx (jsonOutput p) w).2.calls
        = updates w.calls ++ [submitted] ∧
      creates (applyApplicationDeployment env ctx (jsonOutput p) w).2.calls
        = creates w.calls ∧
      submitted.GetResourceVersion = getObj.GetResourceVersion ∧
      RemoveNestedField submitted.Object resourceVersionPath = spec := by
  have hu := Unmarshal_envelope p
  have hs := setResourceVersion_envelope (toValidUTF8 p) getObj.GetResourceVersion
  refine ⟨envelopeFields (toValidUTF8 p),
    Unstructured.SetResourceVersion ⟨envelopeFields (toValidUTF8 p)⟩ getObj.GetResourceVersion,
    hu, ?_, ?_, ?_, hs.1, hs.2⟩
  all_goals
    simp only [applyApplicationDeployment, jsonOutput, hcfg, hnew, hget, hu, World.step]
    cases hupd : env.ResourceUpdate Context.todo
      (Unstructured.SetResourceVersion ⟨envelopeFields (toValidUTF8 p)⟩
        getObj.GetResourceVersion) s3 with
    | mk res s4 =>
      cases res <;>
        simp [creates_append, updates_append, creates, updates]

theorem applyApplicationDeployment_update_witness :
    (clusterEnv id).ResourceGet .todo (ascii "fluxdemo") demoCluster
        = (.ok demoStored, demoCluster) ∧
      ∃ (spec : Fields) (submitted : Unstructured),
        Unmarshal (jsonOutput (ascii "P")) = .ok spec ∧
        (applyApplicationDeployment (clusterEnv id) .request (jsonOutput (ascii "P"))
            ⟨demoCluster, []⟩).2.calls
          = [] ++ [.inClusterConfig, .newForConfig,
              .resourceGet .todo (ascii "fluxdemo"), .resourceUpdate .todo submitted] ∧
        updates (applyApplicationDeployment (clusterEnv id) .request (jsonOutput (ascii "P"))
            ⟨demoCluster, []⟩).2.calls = updates [] ++ [submitted] ∧
        creates (applyApplicationDeployment (clusterEnv id) .request (jsonOutput (ascii "P"))
            ⟨demoCluster, []⟩).2.calls = creates [] ∧
        submitted.GetResourceVersion = demoStored.GetResourceVersion ∧
        RemoveNestedField submitted.Object resourceVersionPath = spec :=
  ⟨rfl, applyApplicationDeployment_update (clusterEnv id) .request (ascii "P")
    ⟨demoCluster, []⟩ demoCluster demoCluster demoCluster demoStored rfl rfl rfl⟩

theorem list_ne_append_singleton {α : Type} (l : List α) (x : α) : l ++ [x] ≠ l := by
  intro h
  have := congrArg List.length h
  simp at this

/-- C2: `applyApplicationDeployment` issues a `Create` if and only if its
lookup fails with `NotFound`; the object it creates is the decoded spec as it
stands, that call issues no `Update`, and it ends without error when the
`Create` succeeds.  For any other lookup error it returns that error and
issues neither `Create` nor `Update`. -/
theorem applyApplicationDeployment_create {σ : Type} (env : Env σ) (ctx : Context)
    (p : GoString) (w : World σ) :
    Unmarshal (jsonOutput p) = .ok (envelopeFields (toValidUTF8 p)) ∧
    ((creates (applyApplicationDeployment env ctx (jsonOutput p) w).2.calls
        = creates w.calls ++ [⟨envelopeFields (toValidUTF8 p)⟩])
      ↔ ((env.InClusterConfig w.state).1 = none
        ∧ (env.NewForConfig (env.InClusterConfig w.state).2).1 = none
        ∧ ∃ e, (env.ResourceGet .todo (ascii "fluxdemo")
              (env.NewForConfig (env.InClusterConfig w.state).2).2).1 = .error e
            ∧ IsNotFound e = true)) ∧
    (creates (applyApplicationDeployment env ctx (jsonOutput p) w).2.calls
        = creates w.calls ++ [⟨envelopeFields (toValidUTF8 p)⟩]
      → updates (applyApplicationDeployment env ctx (jsonOutput p) w).2.calls
          = updates w.calls
        ∧ ((∃ created, (env.ResourceCreate .todo ⟨envelopeFields (toValidUTF8 p)⟩
              (env.ResourceGet .todo (ascii "fluxdemo")
                (env.NewForConfig (env.InClusterConfig w.state).2).2).2).1 = .ok created)
          → (applyApplicationDeployment env ctx (jsonOutput p) w).1
              = (Result.empty, none))) ∧
    (creates (applyApplicationDeployment env ctx (jsonOutput p) w).2.calls
        ≠ creates w.calls ++ [⟨envelopeFields (toValidUTF8 p)⟩]
      → creates (applyApplicationDeployment env ctx (jsonOutput p) w).2.calls
          = creates w.calls) ∧
    ((env.InClusterConfig w.state).1 = none
      → (env.NewForConfig (env.InClusterConfig w.state).2).1 = none
      → ∀ e, (env.ResourceGet .todo (ascii "fluxdemo")
            (env.NewForConfig (env.InClusterConfig w.state).2).2).1 = .error e
        → IsNotFound e = false
        → (applyApplicationDeployment env ctx (jsonOutput p) w).1 = (Result.empty, some e)
          ∧ creates (applyApplicationDeployment env ctx (jsonOutput p) w).2.calls
              = creates w.calls
          ∧ updates (applyApplicationDeployment env ctx (jsonOutput p) w).2.calls
              = updates w.calls) := by
  have hu := Unmarshal_envelope p
  refine ⟨hu, ?_⟩
  rcases hcfg : env.InClusterConfig w.state with ⟨c, s1⟩
  rcases hnew : env.NewForConfig s1 with ⟨n, s2⟩
  rcases hget : env.ResourceGet .todo (ascii "fluxdemo") s2 with ⟨g, s3⟩
  rcases hcre : env.ResourceCreate .todo ⟨envelopeFields (toValidUTF8 p)⟩ s3 with ⟨cr, s4⟩
  have hne := list_ne_append_singleton (creates w.calls)
    (⟨envelopeFields (toValidUTF8 p)⟩ : Unstructured)
  cases c with
  | some err =>
    simp [applyApplicationDeployment, jsonOutput, hcfg, World.step, creates_append, creates,
      hne.symm]
  | none =>
    cases n with
    | some err =>
      simp [applyApplicationDeployment, jsonOutput, hcfg, hnew, World.step, creates_append,
        creates, hne.symm]
    | none =>
      cases g with
      | ok getObj =>
        rcases hupd : env.ResourceUpdate .todo
          (Unstructured.SetResourceVersion ⟨envelopeFields (toValidUTF8 p)⟩
            getObj.GetResourceVersion) s3 with ⟨u, s5⟩
        cases u <;>
          simp [applyApplicationDeployment, jsonOutput, hcfg, hnew, hget, hu, hupd, World.step,
            creates_append, creates, hne.symm]
      | error e =>
        cases hnf : IsNotFound e with
        | false =>
          simp [applyApplicationDeployment, jsonOutput, hcfg, hnew, hget, hu, hnf, World.step,
            creates_append, creates, updates_append, updates, hne.symm]
        | true =>
          cases cr <;>
            simp [applyApplicationDeployment, jsonOutput, hcfg, hnew, hget, hu, hnf, hcre,
              World.step, creates_append, creates, updates_append, updates]

theorem decimalDigits_ne_nil (fuel n : Nat) : decimalDigits (fuel + 1) n ≠ [] := by
  unfold decimalDigits
  split_ifs <;> simp

theorem decimal_length_ne_zero (n : Nat) : ¬ (decimal n).length = 0 := by
  intro h
  exact decimalDigits_ne_nil n n (List.length_eq_zero.mp h)

theorem findObject_putObject (objs : List (GoString × Unstructured)) (name : GoString)
    (obj : Unstructured) : findObject (putObject objs name obj) name = some obj := by
  induction objs with
  | nil => simp [putObject, findObject]
  | cons kv rest ih =>
    obtain ⟨n, o⟩ := kv
    by_cases h : n = name
    · simp [putObject, findObject, h]
    · simp [putObject, findObject, h, ih]

theorem getName_setResourceVersion (q t : GoString) :
    (Unstructured.SetResourceVersion ⟨envelopeFields q⟩ t).GetName = ascii "fluxdemo" := by
  cases t with
  | nil => rfl
  | cons b rest => rfl

theorem getName_envelope (q : GoString) :
    (⟨envelopeFields q⟩ : Unstructured).GetName = ascii "fluxdemo" := rfl

theorem stamp_envelope (q t : GoString) :
    getNestedString (SetNestedField (envelopeFields q) (.string t) resourceVersionPath)
        resourceVersionPath = t ∧
      RemoveNestedField (SetNestedField (envelopeFields q) (.string t) resourceVersionPath)
        resourceVersionPath = envelopeFields q ∧
      getNestedString (SetNestedField (envelopeFields q) (.string t) resourceVersionPath)
        [ascii "metadata", ascii "name"] = ascii "fluxdemo" := ⟨rfl, rfl, rfl⟩

theorem stamp_stamp_envelope (q t u : GoString) :
    SetNestedField (SetNestedField (envelopeFields q) (.string t) resourceVersionPath)
        (.string u) resourceVersionPath
      = SetNestedField (envelopeFields q) (.string u) resourceVersionPath := rfl

/-- C3: the upsert is idempotent against a cluster API with optimistic
concurrency: when the target resource is absent and nobody else writes, two
calls of `applyApplicationDeployment` with the same spec one after the other
both succeed, the first issues exactly one `Create` and no `Update`, the
second exactly one `Update` and no `Create`, and the resource stored afterwards
is the spec in every field but the token. -/
theorem applyApplicationDeployment_idempotent (ctx : Context) (p : GoString) (c : Cluster)
    (habsent : findObject c.objects (ascii "fluxdemo") = none) :
    ∃ (submitted stored : Unstructured),
      (applyApplicationDeployment (clusterEnv id) ctx (jsonOutput p) ⟨c, []⟩).1
        = (Result.empty, none) ∧
      (applyApplicationDeployment (clusterEnv id) ctx (jsonOutput p) ⟨c, []⟩).2.calls
        = [.inClusterConfig, .newForConfig, .resourceGet .todo (ascii "fluxdemo"),
            .resourceCreate .todo ⟨envelopeFields (toValidUTF8 p)⟩] ∧
      (applyApplicationDeployment (clusterEnv id) ctx (jsonOutput p)
          ⟨(applyApplicationDeployment (clusterEnv id) ctx (jsonOutput p) ⟨c, []⟩).2.state,
            []⟩).1 = (Result.empty, none) ∧
      (applyApplicationDeployment (clusterEnv id) ctx (jsonOutput p)
          ⟨(applyApplicationDeployment (clusterEnv id) ctx (jsonOutput p) ⟨c, []⟩).2.state,
            []⟩).2.calls
        = [.inClusterConfig, .newForConfig, .resourceGet .todo (ascii "fluxdemo"),
            .resourceUpdate .todo submitted] ∧
      findObject (applyApplicationDeployment (clusterEnv id) ctx (jsonOutput p)
          ⟨(applyApplicationDeployment (clusterEnv id) ctx (jsonOutput p) ⟨c, []⟩).2.state,
            []⟩).2.state.objects (ascii "fluxdemo") = some stored ∧
      RemoveNestedField stored.Object resourceVersionPath = envelopeFields (toValidUTF8 p) ∧
      Unmarshal (jsonOutput p) = .ok (envelopeFields (toValidUTF8 p)) := by
  have hu := Unmarshal_envelope p
  have h1 : applyApplicationDeployment (clusterEnv id) ctx (jsonOutput p) ⟨c, []⟩
      = ((Result.empty, none),
          ⟨(c.write (ascii "fluxdemo") ⟨envelopeFields (toValidUTF8 p)⟩).2,
            [.inClusterConfig, .newForConfig, .resourceGet .todo (ascii "fluxdemo"),
              .resourceCreate .todo ⟨envelopeFields (toValidUTF8 p)⟩]⟩) := by
    simp [applyApplicationDeployment, jsonOutput, hu, clusterEnv, apiGet, habsent, IsNotFound,
      apiCreate, getName_envelope, World.step]
  have hd := decimal_length_ne_zero (c.revision + 1)
  obtain ⟨hs1, hs2, hs3⟩ := stamp_envelope (toValidUTF8 p) (decimal (c.revision + 1))
  obtain ⟨ht1, ht2, ht3⟩ := stamp_envelope (toValidUTF8 p) (decimal (c.revision + 1 + 1))
  refine ⟨⟨SetNestedField (envelopeFields (toValidUTF8 p))
      (.string (decimal (c.revision + 1))) resourceVersionPath⟩,
    ⟨SetNestedField (envelopeFields (toValidUTF8 p))
      (.string (decimal (c.revision + 1 + 1))) resourceVersionPath⟩, ?_⟩
  rw [h1]
  simp [applyApplicationDeployment, jsonOutput, hu, clusterEnv, apiGet, Cluster.write,
    findObject_putObject, Unstructured.GetResourceVersion, Unstructured.SetResourceVersion,
    Unstructured.GetName, hs1, hs3, hd, apiUpdate, World.step, stamp_stamp_envelope, ht2]

theorem applyApplicationDeployment_create_witness :
    creates (applyApplicationDeployment (clusterEnv id) .request (jsonOutput (ascii "P"))
        ⟨emptyCluster, []⟩).2.calls = [⟨envelopeFields (ascii "P")⟩] ∧
      (applyApplicationDeployment (clusterEnv id) .request (jsonOutput (ascii "P"))
        ⟨emptyCluster, []⟩).1 = (Result.empty, none) :=
  have h := applyApplicationDeployment_create (clusterEnv id) .request (ascii "P")
    ⟨emptyCluster, []⟩
  have hc := h.2.1.mpr ⟨rfl, rfl, .status .NotFound, rfl, rfl⟩
  ⟨hc, (h.2.2.1 hc).2 ⟨_, rfl⟩⟩

theorem applyApplicationDeployment_idempotent_witness :
    findObject emptyCluster.objects (ascii "fluxdemo") = none ∧
      ∃ (submitted stored : Unstructured),
        (applyApplicationDeployment (clusterEnv id) .request (jsonOutput (ascii "P"))
          ⟨emptyCluster, []⟩).1 = (Result.empty, none) ∧
        (applyApplicationDeployment (clusterEnv id) .request (jsonOutput (ascii "P"))
          ⟨emptyCluster, []⟩).2.calls
          = [.inClusterConfig, .newForConfig, .resourceGet .todo (ascii "fluxdemo"),
              .resourceCreate .todo ⟨envelopeFields (toValidUTF8 (ascii "P"))⟩] ∧
        (applyApplicationDeployment (clusterEnv id) .request (jsonOutput (ascii "P"))
            ⟨(applyApplicationDeployment (clusterEnv id) .request (jsonOutput (ascii "P"))
              ⟨emptyCluster, []⟩).2.state, []⟩).1 = (Result.empty, none) ∧
        (applyApplicationDeployment (clusterEnv id) .request (jsonOutput (ascii "P"))
            ⟨(applyApplicationDeployment (clusterEnv id) .request (jsonOutput (ascii "P"))
              ⟨emptyCluster, []⟩).2.state, []⟩).2.calls
          = [.inClusterConfig, .newForConfig, .resourceGet .todo (ascii "fluxdemo"),
              .resourceUpdate .todo submitted] ∧
        findObject (applyApplicationDeployment (clusterEnv id) .request
            (jsonOutput (ascii "P"))
            ⟨(applyApplicationDeployment (clusterEnv id) .request (jsonOutput (ascii "P"))
              ⟨emptyCluster, []⟩).2.state, []⟩).2.state.objects (ascii "fluxdemo")
          = some stored ∧
        RemoveNestedField stored.Object resourceVersionPath
          = envelopeFields (toValidUTF8 (ascii "P")) ∧
        Unmarshal (jsonOutput (ascii "P")) = .ok (envelopeFields (toValidUTF8 (ascii "P"))) :=
  ⟨rfl, applyApplicationDeployment_idempotent .request (ascii "P") emptyCluster rfl⟩

theorem getResourceVersion_setResourceVersion (q t : GoString) :
    (Unstructured.SetResourceVersion ⟨envelopeFields q⟩ t).GetResourceVersion = t :=
  (setResourceVersion_envelope q t).1

/-- C4: when another writer changes the stored target resource between the
lookup of `applyApplicationDeployment` and its `Update`, so that the stored
token differs from the fetched one, the call returns the `Conflict` error of the
`Update`, the cluster stays as the other writer left it, and the call makes one
lookup and one `Update` and nothing else against the cluster. -/
theorem applyApplicationDeployment_conflict (ctx : Context) (p : GoString) (c : Cluster)
    (otherWriter : Cluster → Cluster) (fetched current : Unstructured)
    (hfetched : findObject c.objects (ascii "fluxdemo") = some fetched)
    (hcurrent : findObject (otherWriter c).objects (ascii "fluxdemo") = some current)
    (htoken : current.GetResourceVersion ≠ fetched.GetResourceVersion) :
    (applyApplicationDeployment (clusterEnv otherWriter) ctx (jsonOutput p) ⟨c, []⟩).1
        = (Result.empty, some (.status .Conflict)) ∧
      (applyApplicationDeployment (clusterEnv otherWriter) ctx (jsonOutput p) ⟨c, []⟩).2.state
        = otherWriter c ∧
      (applyApplicationDeployment (clusterEnv otherWriter) ctx (jsonOutput p) ⟨c, []⟩).2.calls
        = [.inClusterConfig, .newForConfig, .resourceGet .todo (ascii "fluxdemo"),
            .resourceUpdate .todo
              (Unstructured.SetResourceVersion ⟨envelopeFields (toValidUTF8 p)⟩
                fetched.GetResourceVersion)] ∧
      (clusterEnv otherWriter).ResourceUpdate .todo
          (Unstructured.SetResourceVersion ⟨envelopeFields (toValidUTF8 p)⟩
            fetched.GetResourceVersion) (otherWriter c)
        = (.error (.status .Conflict), otherWriter c) := by
  have hu := Unmarshal_envelope p
  have hn := getName_setResourceVersion (toValidUTF8 p) fetched.GetResourceVersion
  have hv := getResourceVersion_setResourceVersion (toValidUTF8 p) fetched.GetResourceVersion
  have hne : ¬ fetched.GetResourceVersion = current.GetResourceVersion :=
    fun h => htoken h.symm
  simp [applyApplicationDeployment, jsonOutput, hu, clusterEnv, apiGet, hfetched, apiUpdate,
    hn, hv, hcurrent, hne, World.step]

theorem applyApplicationDeployment_conflict_witness :
    rivalStored.GetResourceVersion ≠ demoStored.GetResourceVersion ∧
      (applyApplicationDeployment (clusterEnv rivalWriter) .request (jsonOutput (ascii "P"))
        ⟨demoCluster, []⟩).1 = (Result.empty, some (.status .Conflict)) ∧
      (applyApplicationDeployment (clusterEnv rivalWriter) .request (jsonOutput (ascii "P"))
        ⟨demoCluster, []⟩).2.state = rivalWriter demoCluster ∧
      (applyApplicationDeployment (clusterEnv rivalWriter) .request (jsonOutput (ascii "P"))
        ⟨demoCluster, []⟩).2.calls
        = [.inClusterConfig, .newForConfig, .resourceGet .todo (ascii "fluxdemo"),
            .resourceUpdate .todo
              (Unstructured.SetResourceVersion ⟨envelopeFields (toValidUTF8 (ascii "P"))⟩
                demoStored.GetResourceVersion)] ∧
      (clusterEnv rivalWriter).ResourceUpdate .todo
          (Unstructured.SetResourceVersion ⟨envelopeFields (toValidUTF8 (ascii "P"))⟩
            demoStored.GetResourceVersion) (rivalWriter demoCluster)
        = (.error (.status .Conflict), rivalWriter demoCluster) :=
  ⟨by decide, applyApplicationDeployment_conflict .request (ascii "P") demoCluster rivalWriter
    demoStored rivalStored rfl rfl (by decide)⟩

set_option maxRecDepth 1000000 in
/-- For a file whose one byte is `0xFF`, the object that `Reconcile` submits to
the cluster has the three bytes of U+FFFD as its `spec.template`, not the
content of the file. -/
theorem Reconcile_template_not_verbatim :
    creates (Reconcile (scenarioEnv { scenarioA with files := [(ascii "app.json", .ok [byte 255])] })
        .request demoRequest ⟨freshMachine, []⟩).2.calls
      = [⟨envelopeFields [byte 239, byte 191, byte 189]⟩] ∧
    Unmarshal (jsonOutput [byte 255]) = .ok (envelopeFields [byte 239, byte 191, byte 189]) ∧
    getNestedString (envelopeFields [byte 239, byte 191, byte 189])
        [ascii "spec", ascii "template"] ≠ [byte 255] := by
  refine ⟨?_, ?_, by decide⟩
  · exact rfl
  · exact rfl

/-- C8: when reading the watched resource fails, `Reconcile` makes that read
and no other call; it returns an empty result with no error when the failure is
`NotFound`, and the error of the read otherwise. -/
theorem Reconcile_read_failure {σ : Type} (env : Env σ) (ctx : Context) (req : Request)
    (w : World σ) (err : GoError) (s1 : σ)
    (hget : env.Get ctx req.NamespacedName w.state = (.error err, s1)) :
    (Reconcile env ctx req w).2.calls = w.calls ++ [.clientGet ctx req.NamespacedName] ∧
      (Reconcile env ctx req w).2.state = s1 ∧
      (IsNotFound err = true →
        (Reconcile env ctx req w).1 = .returned Result.empty none) ∧
      (IsNotFound err = false →
        (Reconcile env ctx req w).1 = .returned Result.empty (some err)) := by
  refine ⟨?_, ?_, ?_, ?_⟩ <;> simp +contextual [Reconcile, hget, World.step, IgnoreNotFound]

theorem Reconcile_read_failure_witness :
    (Reconcile (scenarioEnv { scenarioA with repository := .error (.status .NotFound) })
        .request demoRequest ⟨freshMachine, []⟩).2.calls
        = [] ++ [.clientGet .request demoRequest.NamespacedName] ∧
      (Reconcile (scenarioEnv { scenarioA with repository := .error (.status .NotFound) })
        .request demoRequest ⟨freshMachine, []⟩).2.state = freshMachine ∧
      (IsNotFound (.status .NotFound) = true →
        (Reconcile (scenarioEnv { scenarioA with repository := .error (.status .NotFound) })
          .request demoRequest ⟨freshMachine, []⟩).1 = .returned Result.empty none) ∧
      (IsNotFound (.status .NotFound) = false →
        (Reconcile (scenarioEnv { scenarioA with repository := .error (.status .NotFound) })
          .request demoRequest ⟨freshMachine, []⟩).1
          = .returned Result.empty (some (.status .NotFound))) :=
  Reconcile_read_failure (scenarioEnv { scenarioA with repository := .error (.status .NotFound) })
    .request demoRequest ⟨freshMachine, []⟩ (.status .NotFound) freshMachine rfl

/-- C10: when the read at the start of `Reconcile` returns a watched resource
whose `Status.Artifact` is nil, `Reconcile` does not complete with a result or
an error: it panics on `artifact.Revision`, having made no call but the read. -/
theorem Reconcile_nil_artifact {σ : Type} (env : Env σ) (ctx : Context) (req : Request)
    (w : World σ) (repository : GitRepository) (s1 : σ)
    (hget : env.Get ctx req.NamespacedName w.state = (.ok repository, s1))
    (hnil : repository.Artifact = none) :
    (Reconcile env ctx req w).1
        = .panicked "invalid memory address or nil pointer dereference" ∧
      (∀ result err, (Reconcile env ctx req w).1 ≠ .returned result err) ∧
      (Reconcile env ctx req w).2.calls = w.calls ++ [.clientGet ctx req.NamespacedName] := by
  simp [Reconcile, hget, hnil, World.step]

theorem Reconcile_nil_artifact_witness :
    (Reconcile (scenarioEnv { scenarioA with repository := .ok pendingRepository })
        .request demoRequest ⟨freshMachine, []⟩).1
        = .panicked "invalid memory address or nil pointer dereference" ∧
      (∀ result err,
        (Reconcile (scenarioEnv { scenarioA with repository := .ok pendingRepository })
          .request demoRequest ⟨freshMachine, []⟩).1 ≠ .returned result err) ∧
      (Reconcile (scenarioEnv { scenarioA with repository := .ok pendingRepository })
        .request demoRequest ⟨freshMachine, []⟩).2.calls
        = [] ++ [.clientGet .request demoRequest.NamespacedName] :=
  Reconcile_nil_artifact (scenarioEnv { scenarioA with repository := .ok pendingRepository })
    .request demoRequest ⟨freshMachine, []⟩ pendingRepository freshMachine rfl rfl

set_option maxRecDepth 1000000 in
/-- C9: the context of the request is cancelled while the archive is fetched,
in an environment whose every call honours the context it is given.
`Reconcile` still looks the target up and creates it, because those calls are
given `context.TODO()`; given the context of the request the same `Create`
would have been aborted.  The scratch directory is removed. -/
theorem Reconcile_ignores_cancellation :
    (Reconcile (scenarioEnv { scenarioA with cancelDuringFetch := true })
        .request demoRequest ⟨freshMachine, []⟩).1 = .returned Result.empty none ∧
    (Reconcile (scenarioEnv { scenarioA with cancelDuringFetch := true })
        .request demoRequest ⟨freshMachine, []⟩).2.state.cancelled = true ∧
    lookups (Reconcile (scenarioEnv { scenarioA with cancelDuringFetch := true })
        .request demoRequest ⟨freshMachine, []⟩).2.calls = [ascii "fluxdemo"] ∧
    creates (Reconcile (scenarioEnv { scenarioA with cancelDuringFetch := true })
        .request demoRequest ⟨freshMachine, []⟩).2.calls = [⟨envelopeFields (ascii "P")⟩] ∧
    (findObject (Reconcile (scenarioEnv { scenarioA with cancelDuringFetch := true })
        .request demoRequest ⟨freshMachine, []⟩).2.state.cluster.objects
          (ascii "fluxdemo")).isSome = true ∧
    (scenarioEnv { scenarioA with cancelDuringFetch := true }).ResourceCreate .request
        ⟨envelopeFields (ascii "P")⟩ { freshMachine with cancelled := true }
      = (.error contextCanceled, { freshMachine with cancelled := true }) ∧
    (scenarioEnv { scenarioA with cancelDuringFetch := true }).DirExists (ascii "/tmp/repo1")
        (Reconcile (scenarioEnv { scenarioA with cancelDuringFetch := true })
          .request demoRequest ⟨freshMachine, []⟩).2.state = false := by
  refine ⟨?_, ?_, ?_, ?_, ?_, ?_, ?_⟩ <;> exact rfl

theorem successes_append (a b : List Call) : successes (a ++ b) = successes a + successes b := by
  induction a with
  | nil => simp [successes]
  | cons c rest ih =>
    cases c with
    | applied doc err =>
      cases err with
      | none => simp [successes, ih]; omega
      | some e => simp [successes, ih]
    | _ => simp [successes, ih]

theorem applyApplicationDeployment_log {σ : Type} (env : Env σ) (ctx : Context)
    (doc : List Byte) (w : World σ) :
    upserts (applyApplicationDeployment env ctx doc w).2.calls = upserts w.calls ∧
      removals (applyApplicationDeployment env ctx doc w).2.calls = removals w.calls ∧
      successes (applyApplicationDeployment env ctx doc w).2.calls = successes w.calls := by
  unfold applyApplicationDeployment
  rcases env.InClusterConfig w.state with ⟨c, s1⟩
  cases c with
  | some err => simp [World.step, upserts_append, removals_append, successes_append, upserts,
      removals, successes]
  | none =>
    simp only [World.step]
    rcases env.NewForConfig s1 with ⟨n, s2⟩
    cases n with
    | some err => simp [upserts_append, removals_append, successes_append, upserts,
        removals, successes]
    | none =>
      simp only []
      cases Unmarshal doc with
      | error err => simp [upserts_append, removals_append, successes_append, upserts,
          removals, successes]
      | ok obj =>
        simp only []
        rcases env.ResourceGet .todo (ascii "fluxdemo") s2 with ⟨g, s3⟩
        cases g with
        | error err =>
          simp only []
          by_cases hnf : IsNotFound err = true
          · simp only [hnf, if_true]
            rcases env.ResourceCreate .todo ⟨obj⟩ s3 with ⟨cr, s4⟩
            cases cr <;> simp [upserts_append, removals_append, successes_append, upserts,
              removals, successes]
          · simp [hnf, upserts_append, removals_append, successes_append, upserts,
              removals, successes]
        | ok getObj =>
          simp only []
          rcases env.ResourceUpdate .todo
            (Unstructured.SetResourceVersion ⟨obj⟩ getObj.GetResourceVersion) s3 with ⟨up, s4⟩
          cases up <;> simp [upserts_append, removals_append, successes_append, upserts,
            removals, successes]

theorem processFiles_upserts {σ : Type} (env : Env σ) (ctx : Context) (tmpDir : GoString)
    (entries : List (GoString × List Byte))
    (hread : ∀ e ∈ entries, ∀ s, (env.ReadFile (tmpDir ++ ascii "/" ++ e.1) s).1 = .ok e.2)
    (w : World σ) :
    ((processFiles env ctx tmpDir (entries.map Prod.fst) w).1 = (Result.empty, none) ∧
        upserts (processFiles env ctx tmpDir (entries.map Prod.fst) w).2.calls
          = upserts w.calls ++ entries.map (fun e => (jsonOutput e.2, none))) ∨
      (∃ done e rest err, entries = done ++ e :: rest ∧
        (processFiles env ctx tmpDir (entries.map Prod.fst) w).1 = (Result.empty, some err) ∧
        upserts (processFiles env ctx tmpDir (entries.map Prod.fst) w).2.calls
          = upserts w.calls ++ done.map (fun e => (jsonOutput e.2, none))
              ++ [(jsonOutput e.2, some err)]) := by
  induction entries generalizing w with
  | nil => left; simp [processFiles]
  | cons e es ih =>
    have hread' : ∀ e ∈ es, ∀ s, (env.ReadFile (tmpDir ++ ascii "/" ++ e.1) s).1 = .ok e.2 :=
      fun x hx s => hread x (List.mem_cons_of_mem e hx) s
    have he := hread e (List.mem_cons_self e es) w.state
    rcases hrd : env.ReadFile (tmpDir ++ ascii "/" ++ e.1) w.state with ⟨res, s1⟩
    rw [hrd] at he
    simp only at he
    subst he
    have hlog := (applyApplicationDeployment_log env ctx (jsonOutput e.2)
      (w.step (.readFile (tmpDir ++ ascii "/" ++ e.1)) s1)).1
    rcases hap : applyApplicationDeployment env ctx (jsonOutput e.2)
      (w.step (.readFile (tmpDir ++ ascii "/" ++ e.1)) s1) with ⟨⟨res, err⟩, w2⟩
    rw [hap] at hlog
    simp only [World.step, upserts_append, upserts, List.append_nil] at hlog
    cases err with
    | some err =>
      right
      refine ⟨[], e, es, err, rfl, ?_, ?_⟩
      · simp only [jsonOutput] at hap
        simp only [List.map_cons, processFiles, hrd, Marshal, hap]
      · simp only [jsonOutput] at hap
        simp only [List.map_cons, processFiles, hrd, Marshal, hap]
        simp [upserts_append, upserts, hlog, jsonOutput]
    | none =>
      have hstep : processFiles env ctx tmpDir ((e :: es).map Prod.fst) w
          = processFiles env ctx tmpDir (es.map Prod.fst)
              ⟨w2.state, w2.calls ++ [.applied (jsonOutput e.2) none]⟩ := by
        simp only [jsonOutput] at hap
        simp only [List.map_cons, processFiles, hrd, Marshal, hap, jsonOutput]
      rw [hstep]
      rcases ih hread' ⟨w2.state, w2.calls ++ [.applied (jsonOutput e.2) none]⟩ with h | h
      · left
        refine ⟨h.1, ?_⟩
        rw [h.2]
        simp [upserts_append, upserts, hlog]
      · right
        obtain ⟨done, f, rest, err, hsplit, hres, hups⟩ := h
        refine ⟨e :: done, f, rest, err, by simp [hsplit], hres, ?_⟩
        rw [hups]
        simp [upserts_append, upserts, hlog]

theorem Reconcile_body {σ : Type} (env : Env σ) (ctx : Context) (req : Request)
    (w : World σ) (repository : GitRepository) (artifact : Artifact) (tmpDir : GoString)
    (s1 s2 : σ)
    (hget : env.Get ctx req.NamespacedName w.state = (.ok repository, s1))
    (hart : repository.Artifact = some artifact)
    (hmk : env.MkdirTemp [] repository.Name s1 = (.ok tmpDir, s2)) :
    Reconcile env ctx req w
      = (.returned
          (reconcileArtifact env ctx artifact tmpDir
            ⟨s2, w.calls ++ [.clientGet ctx req.NamespacedName]
              ++ [.mkdirTemp [] repository.Name]⟩).1.1
          (reconcileArtifact env ctx artifact tmpDir
            ⟨s2, w.calls ++ [.clientGet ctx req.NamespacedName]
              ++ [.mkdirTemp [] repository.Name]⟩).1.2,
        ⟨(env.RemoveAll tmpDir
            (reconcileArtifact env ctx artifact tmpDir
              ⟨s2, w.calls ++ [.clientGet ctx req.NamespacedName]
                ++ [.mkdirTemp [] repository.Name]⟩).2.state).2,
          (reconcileArtifact env ctx artifact tmpDir
            ⟨s2, w.calls ++ [.clientGet ctx req.NamespacedName]
              ++ [.mkdirTemp [] repository.Name]⟩).2.calls ++ [.removeAll tmpDir]⟩) := by
  simp only [Reconcile, hget, hart, World.step, hmk]

theorem reconcileArtifact_listed {σ : Type} (env : Env σ) (ctx : Context)
    (artifact : Artifact) (tmpDir : GoString) (files : List GoString) (w : World σ)
    (s3 s4 : σ)
    (hfetch : env.Fetch artifact.URL artifact.Digest tmpDir w.state = (none, s3))
    (hdir : env.ReadDir tmpDir s3 = (.ok files, s4)) :
    reconcileArtifact env ctx artifact tmpDir w
      = processFiles env ctx tmpDir files
          ⟨s4, w.calls ++ [.fetch artifact.URL artifact.Digest tmpDir] ++ [.readDir tmpDir]⟩ := by
  simp only [reconcileArtifact, hfetch, World.step, hdir]

/-- C6: when the source is read, the scratch directory made, the archive
fetched and the directory listed, and every listed entry is read successfully,
`Reconcile` upserts one envelope per entry in listing order: either every
upsert succeeds, there is one per entry and `Reconcile` returns an empty result
with no error, or the upserts stop at the first that fails and `Reconcile`
returns the error of that upsert. -/
theorem Reconcile_upserts {σ : Type} (env : Env σ) (ctx : Context) (req : Request)
    (w : World σ) (repository : GitRepository) (artifact : Artifact) (tmpDir : GoString)
    (entries : List (GoString × List Byte)) (s1 s2 s3 s4 : σ)
    (hget : env.Get ctx req.NamespacedName w.state = (.ok repository, s1))
    (hart : repository.Artifact = some artifact)
    (hmk : env.MkdirTemp [] repository.Name s1 = (.ok tmpDir, s2))
    (hfetch : env.Fetch artifact.URL artifact.Digest tmpDir s2 = (none, s3))
    (hdir : env.ReadDir tmpDir s3 = (.ok (entries.map Prod.fst), s4))
    (hread : ∀ e ∈ entries, ∀ s, (env.ReadFile (tmpDir ++ ascii "/" ++ e.1) s).1 = .ok e.2) :
    ((Reconcile env ctx req w).1 = .returned Result.empty none ∧
        upserts (Reconcile env ctx req w).2.calls
          = upserts w.calls ++ entries.map (fun e => (jsonOutput e.2, none))) ∨
      (∃ done e rest err, entries = done ++ e :: rest ∧
        (Reconcile env ctx req w).1 = .returned Result.empty (some err) ∧
        upserts (Reconcile env ctx req w).2.calls
          = upserts w.calls ++ done.map (fun e => (jsonOutput e.2, none))
              ++ [(jsonOutput e.2, some err)]) := by
  rw [Reconcile_body env ctx req w repository artifact tmpDir s1 s2 hget hart hmk,
    reconcileArtifact_listed env ctx artifact tmpDir (entries.map Prod.fst) _ s3 s4 hfetch hdir]
  have h := processFiles_upserts env ctx tmpDir entries hread
    ⟨s4, w.calls ++ [.clientGet ctx req.NamespacedName] ++ [.mkdirTemp [] repository.Name]
      ++ [.fetch artifact.URL artifact.Digest tmpDir] ++ [.readDir tmpDir]⟩
  simp only [upserts_append, upserts, List.append_nil] at h ⊢
  rcases h with ⟨hres, hups⟩ | ⟨done, e, rest, err, hsplit, hres, hups⟩
  · left
    refine ⟨?_, hups⟩
    rw [hres]
  · right
    refine ⟨done, e, rest, err, hsplit, ?_, hups⟩
    rw [hres]

theorem Reconcile_upserts_witness :
    (scenarioEnv scenarioTwo).ReadDir (ascii "/tmp/repo1")
        { freshMachine with dirs := [ascii "/tmp/repo1"] }
      = (.ok [ascii "a.json", ascii "b.json"],
          { freshMachine with dirs := [ascii "/tmp/repo1"] }) ∧
    (((Reconcile (scenarioEnv scenarioTwo) .request demoRequest ⟨freshMachine, []⟩).1
          = .returned Result.empty none ∧
        upserts (Reconcile (scenarioEnv scenarioTwo) .request demoRequest
            ⟨freshMachine, []⟩).2.calls
          = upserts [] ++ [(ascii "a.json", ascii "A"), (ascii "b.json", ascii "B")].map
              (fun e => (jsonOutput e.2, none))) ∨
      (∃ done e rest err,
        [(ascii "a.json", ascii "A"), (ascii "b.json", ascii "B")] = done ++ e :: rest ∧
        (Reconcile (scenarioEnv scenarioTwo) .request demoRequest ⟨freshMachine, []⟩).1
          = .returned Result.empty (some err) ∧
        upserts (Reconcile (scenarioEnv scenarioTwo) .request demoRequest
            ⟨freshMachine, []⟩).2.calls
          = upserts [] ++ done.map (fun e => (jsonOutput e.2, none))
              ++ [(jsonOutput e.2, some err)])) :=
  ⟨rfl, Reconcile_upserts (scenarioEnv scenarioTwo) .request demoRequest ⟨freshMachine, []⟩
    demoRepository demoArtifact (ascii "/tmp/repo1")
    [(ascii "a.json", ascii "A"), (ascii "b.json", ascii "B")]
    freshMachine { freshMachine with dirs := [ascii "/tmp/repo1"] }
    { freshMachine with dirs := [ascii "/tmp/repo1"] }
    { freshMachine with dirs := [ascii "/tmp/repo1"] }
    rfl rfl rfl rfl rfl
    (by
      intro e he s
      simp only [List.mem_cons, List.mem_singleton, List.not_mem_nil, or_false] at he
      rcases he with rfl | rfl <;> rfl)⟩

theorem processFiles_log {σ : Type} (env : Env σ) (ctx : Context) (tmpDir : GoString)
    (files : List GoString) (w : World σ) :
    removals (processFiles env ctx tmpDir files w).2.calls = removals w.calls ∧
      ((processFiles env ctx tmpDir files w).1.2 = none ↔
        successes (processFiles env ctx tmpDir files w).2.calls
          = successes w.calls + files.length) ∧
      successes (processFiles env ctx tmpDir files w).2.calls
        ≤ successes w.calls + files.length := by
  induction files generalizing w with
  | nil => simp [processFiles]
  | cons f fs ih =>
    rcases hrd : env.ReadFile (tmpDir ++ ascii "/" ++ f) w.state with ⟨res, s1⟩
    cases res with
    | error err =>
      simp only [processFiles, hrd, World.step]
      simp [removals_append, removals, successes_append, successes]
    | ok content =>
      have hlog := applyApplicationDeployment_log env ctx (encodeValue (envelope content))
        (w.step (.readFile (tmpDir ++ ascii "/" ++ f)) s1)
      rcases hap : applyApplicationDeployment env ctx (encodeValue (envelope content))
        (w.step (.readFile (tmpDir ++ ascii "/" ++ f)) s1) with ⟨⟨res, err⟩, w2⟩
      rw [hap] at hlog
      simp only [World.step, removals_append, removals, successes_append, successes,
        List.append_nil, Nat.add_zero] at hlog
      cases err with
      | some err =>
        simp only [processFiles, hrd, Marshal, hap]
        simp [removals_append, removals, successes_append, successes, hlog]
      | none =>
        simp only [processFiles, hrd, Marshal, hap]
        obtain ⟨h1, h2, h3⟩ := ih ⟨w2.state, w2.calls ++ [.applied (encodeValue (envelope content)) none]⟩
        simp only [removals_append, removals, successes_append, successes,
          List.append_nil, hlog, Nat.zero_add] at h1 h2 h3
        refine ⟨h1, ?_, ?_⟩
        · rw [h2, List.length_cons]
          omega
        · rw [List.length_cons]
          omega

theorem reconcileArtifact_removals {σ : Type} (env : Env σ) (ctx : Context)
    (artifact : Artifact) (tmpDir : GoString) (w : World σ) :
    removals (reconcileArtifact env ctx artifact tmpDir w).2.calls = removals w.calls := by
  unfold reconcileArtifact
  rcases env.Fetch artifact.URL artifact.Digest tmpDir w.state with ⟨fe, s1⟩
  cases fe with
  | some err => simp [World.step, removals_append, removals]
  | none =>
    simp only [World.step]
    rcases env.ReadDir tmpDir s1 with ⟨rd, s2⟩
    cases rd with
    | error err => simp [removals_append, removals]
    | ok files =>
      simp only []
      rw [(processFiles_log env ctx tmpDir files _).1]
      simp [removals_append, removals]

theorem reconcileArtifact_success {σ : Type} (env : Env σ) (ctx : Context)
    (artifact : Artifact) (tmpDir : GoString) (w : World σ) :
    (reconcileArtifact env ctx artifact tmpDir w).1.2 = none ↔
      ∃ s3 files s4, env.Fetch artifact.URL artifact.Digest tmpDir w.state = (none, s3) ∧
        env.ReadDir tmpDir s3 = (.ok files, s4) ∧
        successes (reconcileArtifact env ctx artifact tmpDir w).2.calls
          = successes w.calls + files.length := by
  unfold reconcileArtifact
  rcases hf : env.Fetch artifact.URL artifact.Digest tmpDir w.state with ⟨fe, s1⟩
  cases fe with
  | some err => simp
  | none =>
    simp only [World.step]
    rcases hd : env.ReadDir tmpDir s1 with ⟨rd, s2⟩
    cases rd with
    | error err => simp [hd]
    | ok files =>
      simp only []
      rw [(processFiles_log env ctx tmpDir files _).2.1]
      simp [successes_append, successes, hd]
set_option maxRecDepth 1000000 in
/-- When `os.RemoveAll` fails, `Reconcile` only logs the failure: it returns
without error and the scratch directory it made, which did not exist before the
call, still exists. -/
theorem Reconcile_scratch_survives :
    (Reconcile (scenarioEnv scenarioStuck) .request demoRequest ⟨freshMachine, []⟩).1
        = .returned Result.empty none ∧
      removals (Reconcile (scenarioEnv scenarioStuck) .request demoRequest
        ⟨freshMachine, []⟩).2.calls = [ascii "/tmp/repo1"] ∧
      (scenarioEnv scenarioStuck).DirExists (ascii "/tmp/repo1") freshMachine = false ∧
      (scenarioEnv scenarioStuck).DirExists (ascii "/tmp/repo1")
        (Reconcile (scenarioEnv scenarioStuck) .request demoRequest
          ⟨freshMachine, []⟩).2.state = true := by
  refine ⟨?_, ?_, ?_, ?_⟩ <;> exact rfl

/-- C7 (amended): a call of `Reconcile` that has made its scratch directory
returns, and the last call it makes, on every exit path, is its one
`os.RemoveAll` of that directory, so the directory is gone whenever that removal
succeeds in removing it.  The call returns no error only on full success: the
fetch and the listing succeeded and every listed entry was upserted without
error. -/
theorem Reconcile_removes_scratch {σ : Type} (env : Env σ) (ctx : Context) (req : Request)
    (w : World σ) (repository : GitRepository) (artifact : Artifact) (tmpDir : GoString)
    (s1 s2 : σ)
    (hget : env.Get ctx req.NamespacedName w.state = (.ok repository, s1))
    (hart : repository.Artifact = some artifact)
    (hmk : env.MkdirTemp [] repository.Name s1 = (.ok tmpDir, s2)) :
    ∃ (result : Result) (err : Option GoError) (log : List Call) (s : σ),
      Reconcile env ctx req w
        = (.returned result err, ⟨(env.RemoveAll tmpDir s).2, log ++ [.removeAll tmpDir]⟩) ∧
      removals log = removals w.calls ∧
      ((env.RemoveAll tmpDir s).1 = none →
        (∀ s0, (env.RemoveAll tmpDir s0).1 = none →
          env.DirExists tmpDir (env.RemoveAll tmpDir s0).2 = false) →
        env.DirExists tmpDir (Reconcile env ctx req w).2.state = false) ∧
      (err = none ↔
        ∃ s3 files s4, env.Fetch artifact.URL artifact.Digest tmpDir s2 = (none, s3) ∧
          env.ReadDir tmpDir s3 = (.ok files, s4) ∧
          successes (Reconcile env ctx req w).2.calls = successes w.calls + files.length) := by
  have hb := Reconcile_body env ctx req w repository artifact tmpDir s1 s2 hget hart hmk
  have hr := reconcileArtifact_removals env ctx artifact tmpDir
    ⟨s2, w.calls ++ [.clientGet ctx req.NamespacedName] ++ [.mkdirTemp [] repository.Name]⟩
  have hs := reconcileArtifact_success env ctx artifact tmpDir
    ⟨s2, w.calls ++ [.clientGet ctx req.NamespacedName] ++ [.mkdirTemp [] repository.Name]⟩
  refine ⟨_, _, _, _, hb, ?_, ?_, ?_⟩
  · rw [hr]
    simp [removals_append, removals]
  · intro hok hlaw
    rw [hb]
    exact hlaw _ hok
  · rw [hs, hb]
    simp [successes_append, successes]

set_option maxRecDepth 1000000 in
theorem Reconcile_removes_scratch_witness :
    (scenarioEnv scenarioC).DirExists (ascii "/tmp/repo1")
        (Reconcile (scenarioEnv scenarioC) .request demoRequest ⟨freshMachine, []⟩).2.state
        = false ∧
      (Reconcile (scenarioEnv scenarioC) .request demoRequest ⟨freshMachine, []⟩).1
        = .returned Result.empty (some (.other "context deadline exceeded")) ∧
      ∃ (result : Result) (err : Option GoError) (log : List Call) (s : Machine),
        Reconcile (scenarioEnv scenarioC) .request demoRequest ⟨freshMachine, []⟩
          = (.returned result err,
              ⟨((scenarioEnv scenarioC).RemoveAll (ascii "/tmp/repo1") s).2,
                log ++ [.removeAll (ascii "/tmp/repo1")]⟩) ∧
        removals log = removals [] ∧
        (((scenarioEnv scenarioC).RemoveAll (ascii "/tmp/repo1") s).1 = none →
          (∀ s0, ((scenarioEnv scenarioC).RemoveAll (ascii "/tmp/repo1") s0).1 = none →
            (scenarioEnv scenarioC).DirExists (ascii "/tmp/repo1")
              ((scenarioEnv scenarioC).RemoveAll (ascii "/tmp/repo1") s0).2 = false) →
          (scenarioEnv scenarioC).DirExists (ascii "/tmp/repo1")
            (Reconcile (scenarioEnv scenarioC) .request demoRequest
              ⟨freshMachine, []⟩).2.state = false) ∧
        (err = none ↔
          ∃ s3 files s4,
            (scenarioEnv scenarioC).Fetch demoArtifact.URL demoArtifact.Digest
                (ascii "/tmp/repo1") { freshMachine with dirs := [ascii "/tmp/repo1"] }
              = (none, s3) ∧
            (scenarioEnv scenarioC).ReadDir (ascii "/tmp/repo1") s3 = (.ok files, s4) ∧
            successes (Reconcile (scenarioEnv scenarioC) .request demoRequest
                ⟨freshMachine, []⟩).2.calls = successes [] + files.length) :=
  ⟨rfl, rfl, Reconcile_removes_scratch (scenarioEnv scenarioC) .request demoRequest
    ⟨freshMachine, []⟩ demoRepository demoArtifact (ascii "/tmp/repo1") freshMachine
    { freshMachine with dirs := [ascii "/tmp/repo1"] } rfl rfl rfl⟩

theorem coerceUTF8_length : ∀ (n : Nat) (s : List Byte), s.length ≤ n →
    s.length ≤ (coerceUTF8 n s).length ∧
      (validFrom n s = false → s.length < (coerceUTF8 n s).length) := by
  intro n
  induction n with
  | zero =>
    intro s hn
    cases s with
    | nil => simp [coerceUTF8, validFrom]
    | cons b rest => simp at hn
  | succ n ih =>
    intro s hn
    cases s with
    | nil => simp [coerceUTF8, validFrom]
    | cons b rest =>
      have hrest : rest.length ≤ n := by simpa using hn
      by_cases hinv : (DecodeRune (b :: rest)).1 = RuneError ∧ (DecodeRune (b :: rest)).2 = 1
      · have h := (ih rest hrest).1
        simp only [coerceUTF8, hinv, and_self, if_true, List.length_append, List.length_cons,
          List.length_nil]
        constructor <;> intros <;> omega
      · obtain ⟨h1, h2, _, _⟩ := DecodeRune_spec (b :: rest) (by simp) hinv
        have hd : ((b :: rest).drop (DecodeRune (b :: rest)).2).length ≤ n := by
          rw [List.length_drop]
          simp only [List.length_cons] at h2 ⊢
          omega
        obtain ⟨g1, g2⟩ := ih _ hd
        rw [List.length_drop] at g1 g2
        simp only [coerceUTF8, validFrom, hinv, if_false, List.length_append, List.length_take]
        simp only [List.length_cons] at h2 g1 g2 ⊢
        constructor
        · omega
        · intro hv
          have := g2 hv
          omega

theorem toValidUTF8_eq_iff (s : GoString) : toValidUTF8 s = s ↔ Valid s = true := by
  constructor
  · intro h
    by_contra hv
    have hlt := (coerceUTF8_length s.length s (Nat.le_refl _)).2 (by simpa [Valid] using hv)
    have hlen := congrArg List.length h
    simp only [toValidUTF8] at hlen
    omega
  · exact toValidUTF8_of_valid s

theorem submitted_append (a b : List Call) :
    submitted (a ++ b) = submitted a ++ submitted b := by
  induction a with
  | nil => rfl
  | cons c rest ih => cases c <;> simp [submitted, ih]

theorem specTemplate_setResourceVersion (q t : GoString) :
    specTemplate (Unstructured.SetResourceVersion ⟨envelopeFields q⟩ t) = some (.string q) := by
  cases t with
  | nil => rfl
  | cons b rest => rfl

theorem applyApplicationDeployment_submitted {σ : Type} (env : Env σ) (ctx : Context)
    (p : GoString) (w : World σ) :
    (submitted (applyApplicationDeployment env ctx (encodeValue (envelope p)) w).2.calls
        = submitted w.calls ∧
      (applyApplicationDeployment env ctx (encodeValue (envelope p)) w).1.2 ≠ none) ∨
    (∃ obj, submitted (applyApplicationDeployment env ctx (encodeValue (envelope p)) w).2.calls
        = submitted w.calls ++ [obj] ∧
      specTemplate obj = some (.string (toValidUTF8 p))) := by
  have hu := Unmarshal_envelope p
  unfold applyApplicationDeployment
  rcases env.InClusterConfig w.state with ⟨c, s1⟩
  cases c with
  | some err => left; simp [World.step, submitted_append, submitted]
  | none =>
    simp only [World.step]
    rcases env.NewForConfig s1 with ⟨n, s2⟩
    cases n with
    | some err => left; simp [submitted_append, submitted]
    | none =>
      simp only [hu]
      rcases env.ResourceGet .todo (ascii "fluxdemo") s2 with ⟨g, s3⟩
      cases g with
      | error err =>
        simp only []
        by_cases hnf : IsNotFound err = true
        · simp only [hnf, if_true]
          right
          refine ⟨⟨envelopeFields (toValidUTF8 p)⟩, ?_, rfl⟩
          rcases env.ResourceCreate .todo ⟨envelopeFields (toValidUTF8 p)⟩ s3 with ⟨cr, s4⟩
          cases cr <;> simp [submitted_append, submitted]
        · left
          simp [hnf, submitted_append, submitted]
      | ok getObj =>
        simp only []
        right
        refine ⟨Unstructured.SetResourceVersion ⟨envelopeFields (toValidUTF8 p)⟩
          getObj.GetResourceVersion, ?_, specTemplate_setResourceVersion _ _⟩
        rcases env.ResourceUpdate .todo
          (Unstructured.SetResourceVersion ⟨envelopeFields (toValidUTF8 p)⟩
            getObj.GetResourceVersion) s3 with ⟨up, s4⟩
        cases up <;> simp [submitted_append, submitted]

theorem processFiles_submitted {σ : Type} (env : Env σ) (ctx : Context) (tmpDir : GoString)
    (entries : List (GoString × List Byte))
    (hread : ∀ e ∈ entries, ∀ s, (env.ReadFile (tmpDir ++ ascii "/" ++ e.1) s).1 = .ok e.2)
    (w : World σ) :
    ∃ done rest, entries = done ++ rest ∧
      (submitted (processFiles env ctx tmpDir (entries.map Prod.fst) w).2.calls).map specTemplate
        = (submitted w.calls).map specTemplate
            ++ done.map (fun e => some (.string (toValidUTF8 e.2))) ∧
      ((processFiles env ctx tmpDir (entries.map Prod.fst) w).1.2 = none → rest = []) := by
  induction entries generalizing w with
  | nil => exact ⟨[], [], rfl, by simp [processFiles], fun _ => rfl⟩
  | cons e es ih =>
    have hread' : ∀ e ∈ es, ∀ s, (env.ReadFile (tmpDir ++ ascii "/" ++ e.1) s).1 = .ok e.2 :=
      fun x hx s => hread x (List.mem_cons_of_mem e hx) s
    have he := hread e (List.mem_cons_self e es) w.state
    rcases hrd : env.ReadFile (tmpDir ++ ascii "/" ++ e.1) w.state with ⟨res, s1⟩
    rw [hrd] at he
    simp only at he
    subst he
    have hsub := applyApplicationDeployment_submitted env ctx e.2
      (w.step (.readFile (tmpDir ++ ascii "/" ++ e.1)) s1)
    rcases hap : applyApplicationDeployment env ctx (encodeValue (envelope e.2))
      (w.step (.readFile (tmpDir ++ ascii "/" ++ e.1)) s1) with ⟨⟨res, err⟩, w2⟩
    rw [hap] at hsub
    simp only [World.step, submitted_append, submitted, List.append_nil] at hsub
    cases err with
    | some err =>
      simp only [List.map_cons, processFiles, hrd, Marshal, hap]
      rcases hsub with ⟨h, _⟩ | ⟨obj, h, ht⟩
      · refine ⟨[], e :: es, rfl, ?_, by simp⟩
        simp [submitted_append, submitted, h]
      · refine ⟨[e], es, rfl, ?_, by simp⟩
        simp [submitted_append, submitted, h, ht]
    | none =>
      simp only [List.map_cons, processFiles, hrd, Marshal, hap]
      rcases hsub with ⟨_, h⟩ | ⟨obj, h, ht⟩
      · exact absurd rfl h
      · obtain ⟨done, rest, hsplit, hmap, hnone⟩ :=
          ih hread' ⟨w2.state, w2.calls ++ [.applied (encodeValue (envelope e.2)) none]⟩
        refine ⟨e :: done, rest, by simp [hsplit], ?_, hnone⟩
        rw [hmap]
        simp [submitted_append, submitted, h, ht]

/-- C5 (amended): when the source is read, the scratch directory made, the
archive fetched and listed and every listed entry read, the objects `Reconcile`
submits to the cluster, by `Create` or by `Update`, are one per entry in listing
order, for all entries when `Reconcile` returns no error and for the entries up
to the one at which it stops otherwise.  The `spec.template` of the object for
an entry of payload `P` is the string `toValidUTF8 P`, which is `P` with every
byte that does not start a well-formed rune replaced by the three bytes of
U+FFFD; it is `P` itself if and only if `P` is valid UTF-8.  It is what
`Unmarshal` in `applyApplicationDeployment` decodes from the document that
`Marshal` in `Reconcile` wrote. -/
theorem Reconcile_template {σ : Type} (env : Env σ) (ctx : Context) (req : Request)
    (w : World σ) (repository : GitRepository) (artifact : Artifact) (tmpDir : GoString)
    (entries : List (GoString × List Byte)) (s1 s2 s3 s4 : σ)
    (hget : env.Get ctx req.NamespacedName w.state = (.ok repository, s1))
    (hart : repository.Artifact = some artifact)
    (hmk : env.MkdirTemp [] repository.Name s1 = (.ok tmpDir, s2))
    (hfetch : env.Fetch artifact.URL artifact.Digest tmpDir s2 = (none, s3))
    (hdir : env.ReadDir tmpDir s3 = (.ok (entries.map Prod.fst), s4))
    (hread : ∀ e ∈ entries, ∀ s, (env.ReadFile (tmpDir ++ ascii "/" ++ e.1) s).1 = .ok e.2) :
    (∃ done rest, entries = done ++ rest ∧
      (submitted (Reconcile env ctx req w).2.calls).map specTemplate
        = (submitted w.calls).map specTemplate
            ++ done.map (fun e => some (.string (toValidUTF8 e.2))) ∧
      ((Reconcile env ctx req w).1 = .returned Result.empty none → rest = [])) ∧
    (∀ p : GoString, toValidUTF8 p = p ↔ Valid p = true) ∧
    (∀ p : GoString, Unmarshal (jsonOutput p) = .ok (envelopeFields (toValidUTF8 p))) := by
  refine ⟨?_, toValidUTF8_eq_iff, ?_⟩
  · rw [Reconcile_body env ctx req w repository artifact tmpDir s1 s2 hget hart hmk,
      reconcileArtifact_listed env ctx artifact tmpDir (entries.map Prod.fst) _ s3 s4 hfetch
        hdir]
    obtain ⟨done, rest, hsplit, hmap, hnone⟩ := processFiles_submitted env ctx tmpDir entries
      hread ⟨s4, w.calls ++ [.clientGet ctx req.NamespacedName]
        ++ [.mkdirTemp [] repository.Name]
        ++ [.fetch artifact.URL artifact.Digest tmpDir] ++ [.readDir tmpDir]⟩
    refine ⟨done, rest, hsplit, ?_, ?_⟩
    · simp only [submitted_append, submitted, List.append_nil] at hmap ⊢
      exact hmap
    · intro hret
      apply hnone
      simp only [Outcome.returned.injEq] at hret
      exact hret.2
  · exact Unmarshal_envelope

set_option maxRecDepth 1000000 in
theorem Reconcile_template_witness :
    (submitted (Reconcile (scenarioEnv scenarioMixed) .request demoRequest
        ⟨freshMachine, []⟩).2.calls).map specTemplate
      = [some (.string (ascii "A")), some (.string [byte 239, byte 191, byte 189])] ∧
    (Reconcile (scenarioEnv scenarioMixed) .request demoRequest ⟨freshMachine, []⟩).1
      = .returned Result.empty none ∧
    (∃ done rest, [(ascii "a.json", ascii "A"), (ascii "b.bin", [byte 255])] = done ++ rest ∧
      (submitted (Reconcile (scenarioEnv scenarioMixed) .request demoRequest
          ⟨freshMachine, []⟩).2.calls).map specTemplate
        = (submitted []).map specTemplate
            ++ done.map (fun e => some (.string (toValidUTF8 e.2))) ∧
      ((Reconcile (scenarioEnv scenarioMixed) .request demoRequest ⟨freshMachine, []⟩).1
          = .returned Result.empty none → rest = [])) ∧
    (∀ p : GoString, toValidUTF8 p = p ↔ Valid p = true) ∧
    (∀ p : GoString, Unmarshal (jsonOutput p) = .ok (envelopeFields (toValidUTF8 p))) :=
  ⟨rfl, rfl, Reconcile_template (scenarioEnv scenarioMixed) .request demoRequest
    ⟨freshMachine, []⟩ demoRepository demoArtifact (ascii "/tmp/repo1")
    [(ascii "a.json", ascii "A"), (ascii "b.bin", [byte 255])]
    freshMachine { freshMachine with dirs := [ascii "/tmp/repo1"] }
    { freshMachine with dirs := [ascii "/tmp/repo1"] }
    { freshMachine with dirs := [ascii "/tmp/repo1"] }
    rfl rfl rfl rfl rfl
    (by
      intro e he s
      simp only [List.mem_cons, List.mem_singleton, List.not_mem_nil, or_false] at he
      rcases he with rfl | rfl <;> rfl)⟩


end RadiusFlux
